import Mathlib

set_option maxRecDepth 10000

/-!
Verification development for the `anvil-arbitrum` crate (Ox-rollup repository).

Shallow embedding of:
  - `src/crates/anvil-arbitrum/src/precompiles.rs` (Address, U256, precompile handlers),
  - `src/crates/anvil-arbitrum/src/arbitrum.rs` (ArbitrumConfig),
  - `src/crates/anvil-arbitrum/src/tx7e.rs` (0x7e transaction codec, validator, processor).

Bytes are modelled as `Nat` values below 256; machine integers (`u64`) as `Nat`
with explicit reduction modulo `2 ^ 64` at the operations where the Rust code
can overflow (release-mode wrapping semantics).  The RLP encoding/decoding is
the behaviour of the `rlp` crate (parity RLP) that `tx7e.rs` delegates to.
-/

/-- Wrap-around modulus of the Rust `u64` type. -/
def U64MOD : Nat := 2 ^ 64

/-- A list of `Nat`s is a well-formed byte string when every entry is below 256. -/
def bytesWf (l : List Nat) : Prop := ∀ b ∈ l, b < 256

instance bytesWf.dec (l : List Nat) : Decidable (bytesWf l) := by
  unfold bytesWf; infer_instance

/-- Big-endian value of a byte string (most significant byte first). -/
def beBytesToNat : List Nat → Nat
  | [] => 0
  | b :: rest => b * 256 ^ rest.length + beBytesToNat rest

/-- Fuel-bounded helper for `natToBeBytes`; the fuel only bounds the recursion
depth and `fuel = n` always suffices since `n / 256 < n` for positive `n`. -/
def natToBeBytesAux : Nat → Nat → List Nat
  | 0, _ => []
  | fuel + 1, n => if n = 0 then [] else natToBeBytesAux fuel (n / 256) ++ [n % 256]

/-- Minimal big-endian byte representation of `n` (empty for 0, no leading zero). -/
def natToBeBytes (n : Nat) : List Nat := natToBeBytesAux n n

/-- Fixed-width big-endian byte representation (width `w`, value `n % 256 ^ w`). -/
def beFixed : Nat → Nat → List Nat
  | 0, _ => []
  | w + 1, n => beFixed w (n / 256) ++ [n % 256]

/-- Little-endian value of a digit string in base 256 (least significant first). -/
def leVal : List Nat → Nat
  | [] => 0
  | b :: rest => b + 256 * leVal rest

/-- Little-endian value of a limb string in base `2 ^ 64`. -/
def limbsVal : List Nat → Nat
  | [] => 0
  | l :: rest => l + 2 ^ 64 * limbsVal rest

/-- A list of `Nat`s is a well-formed limb string when every entry is below `2 ^ 64`. -/
def limbsWf (l : List Nat) : Prop := ∀ x ∈ l, x < 2 ^ 64

/-! ### Address (precompiles.rs lines 6-57) -/

/-- 20-byte address value type (`struct Address([u8; 20])`, precompiles.rs line 8). -/
structure Address where
  bytes : List Nat
deriving DecidableEq, Repr

/-- Accessor mirroring `Address::as_bytes` (precompiles.rs line 15). -/
def Address.as_bytes (a : Address) : List Nat := a.bytes

/-- Representation invariant of `Address` (always exactly 20 raw bytes). -/
def Address.valid (a : Address) : Prop := a.bytes.length = 20 ∧ bytesWf a.bytes

instance Address.valid.dec (a : Address) : Decidable a.valid := by
  unfold Address.valid; infer_instance

/-! ### U256 (precompiles.rs lines 59-186) -/

/-- 256-bit unsigned value type, 32 raw big-endian bytes
(`struct U256([u8; 32])`, precompiles.rs line 61). -/
structure U256 where
  bytes : List Nat
deriving DecidableEq, Repr

/-- Representation invariant of `U256` (always exactly 32 raw bytes). -/
def U256.valid (u : U256) : Prop := u.bytes.length = 32 ∧ bytesWf u.bytes

instance U256.valid.dec (u : U256) : Decidable u.valid := by
  unfold U256.valid; infer_instance

/-- Numeric value of a `U256` (big-endian). -/
def U256.toNat (u : U256) : Nat := beBytesToNat u.bytes

/-- `U256::from_u64` (precompiles.rs lines 68-72): value in the last 8 bytes. -/
def U256.from_u64 (value : Nat) : U256 :=
  ⟨List.replicate 24 0 ++ beFixed 8 value⟩

/-- `U256::from_big_endian` (precompiles.rs lines 74-79): left-pad to 32 bytes,
keeping only the first 32 input bytes when the input is longer. -/
def U256.from_big_endian (bytes : List Nat) : U256 :=
  ⟨List.replicate (32 - min bytes.length 32) 0 ++ bytes.take 32⟩

/-- `U256::to_big_endian` (precompiles.rs lines 81-83). -/
def U256.to_big_endian (u : U256) : List Nat := u.bytes

/-- `U256::zero` (precompiles.rs lines 85-87). -/
def U256.zero : U256 := ⟨List.replicate 32 0⟩

/-- `U256::max_value` (precompiles.rs lines 89-91): all bits set. -/
def U256.max_value : U256 := ⟨List.replicate 32 0xff⟩

/-- Byte-wise little-endian addition with carry, processing least significant
byte first; this is the loop `for i in (0..32).rev()` of `overflowing_add`
(precompiles.rs lines 133-144) run over the reversed byte arrays. -/
def addLE : List Nat → List Nat → Nat → List Nat × Nat
  | a :: as_, b :: bs, c =>
    ((a + b + c) % 256 :: (addLE as_ bs ((a + b + c) / 256)).1,
     (addLE as_ bs ((a + b + c) / 256)).2)
  | _, _, c => ([], c)

/-- `U256::overflowing_add` (precompiles.rs lines 133-144). -/
def U256.overflowing_add (x y : U256) : U256 × Bool :=
  let r := addLE x.bytes.reverse y.bytes.reverse 0
  (⟨r.1.reverse⟩, decide (0 < r.2))

/-- `impl Add for U256` (precompiles.rs lines 171-186): same loop, carry-out discarded
(wrap-around modulo `2 ^ 256`). -/
def U256.add (x y : U256) : U256 :=
  ⟨(addLE x.bytes.reverse y.bytes.reverse 0).1.reverse⟩

/-- `U256::saturating_add` (precompiles.rs lines 95-102). -/
def U256.saturating_add (x y : U256) : U256 :=
  let r := x.overflowing_add y
  if r.2 then U256.max_value else r.1

/-- `U256::to_u64_limbs` (precompiles.rs lines 146-156): limb `i` is the big-endian
value of bytes `[24 - 8 i .. 32 - 8 i]`, so limb 0 is least significant. -/
def U256.to_u64_limbs (x : U256) : List Nat :=
  [beBytesToNat ((x.bytes.drop 24).take 8),
   beBytesToNat ((x.bytes.drop 16).take 8),
   beBytesToNat ((x.bytes.drop 8).take 8),
   beBytesToNat ((x.bytes.drop 0).take 8)]

/-- `U256::from_u64_limbs` (precompiles.rs lines 158-167): limb `i` is written
big-endian at bytes `[24 - 8 i .. 32 - 8 i]`. -/
def U256.from_u64_limbs (limbs : List Nat) : U256 :=
  ⟨beFixed 8 (limbs.getD 3 0) ++ beFixed 8 (limbs.getD 2 0) ++
   beFixed 8 (limbs.getD 1 0) ++ beFixed 8 (limbs.getD 0 0)⟩

/-- One row of the schoolbook multiplication of `saturating_mul`
(precompiles.rs lines 111-121): the inner loop `for j in 0..4` is the
`b :: bs` case (`sum = res[i+j] + a*b + carry`, keep `sum % 2^64`, carry
`sum / 2^64`); the trailing `res_limbs[i + 4] += carry` is the `[]` case
(wrapping `u64` addition). -/
def mulRowAux (a : Nat) : List Nat → List Nat → Nat → List Nat
  | [], r :: rs, c => ((r + c) % U64MOD) :: rs
  | [], [], _ => []
  | b :: bs, r :: rs, c =>
    let s := r + a * b + c
    (s % U64MOD) :: mulRowAux a bs rs (s / U64MOD)
  | _ :: _, [], _ => []

/-- Row `i` of the outer loop `for i in 0..4` of `saturating_mul`: the row
rewrites the result limbs starting at offset `i`. -/
def applyRow (a : Nat) (b : List Nat) (i : Nat) (res : List Nat) : List Nat :=
  res.take i ++ mulRowAux a b (res.drop i) 0

/-- The full 4x4 limb multiplication loop of `saturating_mul`
(precompiles.rs lines 108-121), producing the 8-limb result. -/
def mulLimbs (aL bL : List Nat) : List Nat :=
  (List.range 4).foldl (fun res i => applyRow (aL.getD i 0) bL i res) (List.replicate 8 0)

/-- `U256::saturating_mul` (precompiles.rs lines 104-129): schoolbook limb
multiplication; if any of the 4 most significant result limbs is nonzero the
product does not fit and the result saturates to `max_value`. -/
def U256.saturating_mul (x y : U256) : U256 :=
  let res := mulLimbs x.to_u64_limbs y.to_u64_limbs
  if (res.drop 4).any (fun l => l != 0) then U256.max_value
  else U256.from_u64_limbs (res.take 4)

/-! ### Hex parsing of addresses (precompiles.rs lines 19-38)

Strings are modelled as their UTF-8 byte lists.  `u8::from_str_radix(s, 16)`
accepts an optional leading `+` followed by one or more hex digits; a
2-character chunk therefore parses as either two hex digits or a `+` followed
by one hex digit.  A chunk containing a non-ASCII byte fails either in
`std::str::from_utf8` or in `from_str_radix`; both failures are collapsed into
`none` since `from_hex` propagates them identically. -/

/-- Hex digit value of an ASCII byte, as accepted by `from_str_radix(_, 16)`. -/
def hexVal (c : Nat) : Option Nat :=
  if 0x30 ≤ c ∧ c ≤ 0x39 then some (c - 0x30)
  else if 0x61 ≤ c ∧ c ≤ 0x66 then some (c - 0x57)
  else if 0x41 ≤ c ∧ c ≤ 0x46 then some (c - 0x37)
  else none

/-- Parse one 2-character chunk by `u8::from_str_radix(chunk, 16)`
(precompiles.rs lines 30-33), including its optional leading `+`. -/
def parseChunk (a b : Nat) : Option Nat :=
  if a = 0x2b then hexVal b
  else
    match hexVal a, hexVal b with
    | some x, some y => some (x * 16 + y)
    | _, _ => none

/-- Parse consecutive 2-character chunks (`hex.as_bytes().chunks(2)`,
precompiles.rs line 26). -/
def parseHexChunks : List Nat → Option (List Nat)
  | [] => some []
  | a :: b :: rest =>
    match parseChunk a b, parseHexChunks rest with
    | some v, some vs => some (v :: vs)
    | _, _ => none
  | [_] => none

/-- Strip an optional leading `"0x"` (`hex.strip_prefix("0x").unwrap_or(hex)`,
precompiles.rs line 20). -/
def stripHexPfx (s : List Nat) : List Nat :=
  if s.take 2 = [0x30, 0x78] then s.drop 2 else s

/-- Errors of `Address::from_hex`. -/
inductive AddrErr where
  | invalidLength
  | invalidChunk
deriving DecidableEq, Repr

/-- `Address::from_hex` (precompiles.rs lines 19-38). -/
def Address.from_hex (s : List Nat) : Except AddrErr Address :=
  let hex := stripHexPfx s
  if hex.length ≠ 40 then .error .invalidLength
  else
    match parseHexChunks hex with
    | some bytes => .ok ⟨bytes⟩
    | none => .error .invalidChunk

/-- Whether an `Except` is a success. -/
def exceptIsOk {ε α : Type} : Except ε α → Bool
  | .ok _ => true
  | .error _ => false

/-- Claim-side predicate: the byte is an ASCII hex digit. -/
def isHexDigitByte (c : Nat) : Bool :=
  (0x30 ≤ c && c ≤ 0x39) || (0x61 ≤ c && c ≤ 0x66) || (0x41 ≤ c && c ≤ 0x46)

/-- Claim-side predicate: every consecutive 2-character chunk is two hex digits,
or a `+` followed by a hex digit (the exact set `from_str_radix` accepts). -/
def chunksOk : List Nat → Bool
  | [] => true
  | a :: b :: rest =>
    ((isHexDigitByte a && isHexDigitByte b) || (a == 0x2b && isHexDigitByte b)) && chunksOk rest
  | [_] => false

/-! ### Configuration (arbitrum.rs lines 6-74)

The `mock_l1_bridge` string and the `precompiles` descriptor map are carried by
the Rust struct but read by none of the code under verification; they are
omitted from the embedding. -/

/-- `GasPriceComponents` (arbitrum.rs lines 26-36); all fields are `u64`. -/
structure GasPriceComponents where
  l2_base_fee : Nat
  l1_calldata_cost : Nat
  l1_storage_cost : Nat
  congestion_fee : Nat
deriving DecidableEq, Repr

/-- `ArbitrumConfig` (arbitrum.rs lines 7-23). -/
structure ArbitrumConfig where
  chain_id : Nat
  arb_os_version : Nat
  l1_base_fee : Nat
  gas_price_components : GasPriceComponents
  tx7e_enabled : Bool
deriving DecidableEq, Repr

/-- Default `GasPriceComponents` (arbitrum.rs lines 65-74). -/
def GasPriceComponents.defaultComponents : GasPriceComponents :=
  { l2_base_fee := 1000000000
    l1_calldata_cost := 16
    l1_storage_cost := 0
    congestion_fee := 0 }

/-- Default `ArbitrumConfig` (arbitrum.rs lines 51-63). -/
def ArbitrumConfig.defaultConfig : ArbitrumConfig :=
  { chain_id := 42161
    arb_os_version := 20
    l1_base_fee := 20000000000
    gas_price_components := GasPriceComponents.defaultComponents
    tx7e_enabled := true }

/-! ### Precompile handlers (precompiles.rs lines 199-513) -/

/-- Errors of `PrecompileHandler::handle_call` (`anyhow` messages in the source). -/
inductive PrecompileErr where
  | inputTooShort
  | unknownSelector (selector : List Nat)
deriving DecidableEq, Repr

/-- `ArbSysHandler::handle_call` (precompiles.rs lines 233-248) together with the
three selector handlers (lines 255-275).  The source hex-encodes the selector
and matches the hex string; matching the 4 selector bytes directly is the same
test. -/
def ArbSysHandler.handle_call (input : List Nat) (config : ArbitrumConfig) :
    Except PrecompileErr (List Nat) :=
  if input.length < 4 then .error .inputTooShort
  else
    let selector := input.take 4
    if selector = [0xd1, 0x27, 0xf5, 0x4a] then
      .ok (U256.from_u64 config.chain_id).to_big_endian
    else if selector = [0xa3, 0xb1, 0xb3, 0x1d] then
      .ok (U256.from_u64 1).to_big_endian
    else if selector = [0x05, 0x10, 0x38, 0xf2] then
      .ok (U256.from_u64 config.arb_os_version).to_big_endian
    else .error (.unknownSelector selector)

/-- `GasAccountingParams` held by `ArbGasInfoHandler` (precompiles.rs lines 279-306). -/
def speedLimitPerSecond : Nat := 120000000
def gasPoolMax : Nat := 32000000
def maxTxGasLimit : Nat := 32000000
def amortizedCostCapBips : Nat := 10000

/-- `ArbGasInfoHandler::handle_get_current_tx_l1_gas_fees`
(precompiles.rs lines 368-397).  All arithmetic is `u64`; each multiplication
and addition is reduced modulo `2 ^ 64` (release-mode wrapping). -/
def ArbGasInfoHandler.handle_get_current_tx_l1_gas_fees
    (input : List Nat) (config : ArbitrumConfig) : List Nat :=
  let non_zero_bytes := input.countP (fun b => b != 0)
  let zero_bytes := input.countP (fun b => b == 0)
  let cost_per_non_zero := config.gas_price_components.l1_calldata_cost
  let raw_gas := (non_zero_bytes * cost_per_non_zero % U64MOD + zero_bytes * 4 % U64MOD) % U64MOD
  let l1_gas_used := raw_gas * 9 % U64MOD / 10
  let l1_gas_fees := l1_gas_used * config.l1_base_fee % U64MOD
  (U256.from_u64 l1_gas_fees).to_big_endian

/-- `ArbGasInfoHandler::handle_get_prices_in_wei` (precompiles.rs lines 401-430). -/
def ArbGasInfoHandler.handle_get_prices_in_wei (config : ArbitrumConfig) : List Nat :=
  let l2_base_fee := U256.from_u64 config.gas_price_components.l2_base_fee
  let l1_calldata_cost := U256.from_u64 config.gas_price_components.l1_calldata_cost
  let l1_base_fee := U256.from_u64 config.l1_base_fee
  let l1_byte_price := l1_base_fee.saturating_mul l1_calldata_cost
  let congestion_fee := U256.from_u64 config.gas_price_components.congestion_fee
  let total_l2 := l2_base_fee.saturating_add congestion_fee
  l2_base_fee.to_big_endian ++ l1_calldata_cost.to_big_endian ++ l1_byte_price.to_big_endian ++
    l2_base_fee.to_big_endian ++ congestion_fee.to_big_endian ++ total_l2.to_big_endian

/-- `handle_get_gas_accounting_params` (precompiles.rs lines 459-471). -/
def ArbGasInfoHandler.handle_get_gas_accounting_params : List Nat :=
  (U256.from_u64 speedLimitPerSecond).to_big_endian ++
    (U256.from_u64 gasPoolMax).to_big_endian ++ (U256.from_u64 maxTxGasLimit).to_big_endian

/-- `handle_get_prices_in_arb_gas` (precompiles.rs lines 475-487). -/
def ArbGasInfoHandler.handle_get_prices_in_arb_gas (config : ArbitrumConfig) : List Nat :=
  (U256.from_u64 config.gas_price_components.l2_base_fee).to_big_endian ++
    (U256.from_u64 config.gas_price_components.l1_calldata_cost).to_big_endian ++
    (U256.from_u64 config.gas_price_components.l1_storage_cost).to_big_endian

/-- `ArbGasInfoHandler::handle_call` (precompiles.rs lines 318-343): selector
dispatch over the 12 recognised selectors. -/
def ArbGasInfoHandler.handle_call (input : List Nat) (config : ArbitrumConfig) :
    Except PrecompileErr (List Nat) :=
  if input.length < 4 then .error .inputTooShort
  else
    let selector := input.take 4
    if selector = [0xc6, 0xf7, 0xde, 0x0e] then
      .ok (ArbGasInfoHandler.handle_get_current_tx_l1_gas_fees input config)
    else if selector = [0x41, 0xb2, 0x47, 0xa8] then
      .ok (ArbGasInfoHandler.handle_get_prices_in_wei config)
    else if selector = [0xf5, 0xd6, 0xde, 0xd7] then
      .ok (U256.from_u64 config.l1_base_fee).to_big_endian
    else if selector = [0x02, 0x19, 0x9f, 0x34] then
      .ok (ArbGasInfoHandler.handle_get_prices_in_arb_gas config)
    else if selector = [0xb2, 0x46, 0xb5, 0x65] then
      .ok (U256.from_u64 config.gas_price_components.l2_base_fee).to_big_endian
    else if selector = [0x05, 0x5f, 0x36, 0x2f] then
      .ok (U256.from_u64 config.l1_base_fee).to_big_endian
    else if selector = [0x61, 0x2a, 0xf1, 0x78] then
      .ok ArbGasInfoHandler.handle_get_gas_accounting_params
    else if selector = [0xf9, 0x18, 0x37, 0x9a] then
      .ok (U256.from_u64 config.gas_price_components.l2_base_fee).to_big_endian
    else if selector = [0x7a, 0x7d, 0x6b, 0xeb] then
      .ok (U256.from_u64 amortizedCostCapBips).to_big_endian
    else if selector = [0x67, 0x03, 0x7b, 0xec] then
      .ok (U256.from_u64 1).to_big_endian
    else if selector = [0x43, 0xa2, 0x8b, 0x2e] then
      .ok (ArbGasInfoHandler.handle_get_prices_in_wei config)
    else if selector = [0x12, 0xf7, 0x8b, 0xaa] then
      .ok (ArbGasInfoHandler.handle_get_prices_in_arb_gas config)
    else .error (.unknownSelector selector)

/-! ### RLP encoding (behaviour of the `rlp` crate used by tx7e.rs) -/

/-- RLP encoding of a byte string (`RlpStream::encoder().encode_value`):
a single byte below 0x80 stands for itself; strings of up to 55 bytes get a
`0x80 + len` header; longer strings get a `0xb7 + len-of-len` header followed
by the big-endian length. -/
def rlpEncodeBytes (s : List Nat) : List Nat :=
  if s.length = 1 ∧ s.headI < 0x80 then s
  else if s.length ≤ 55 then (0x80 + s.length) :: s
  else (0xb7 + (natToBeBytes s.length).length) :: (natToBeBytes s.length ++ s)

/-- RLP encoding of a `u64` (`impl Encodable for u64`): the minimal big-endian
bytes of the value, encoded as a string. -/
def rlpEncodeU64 (n : Nat) : List Nat := rlpEncodeBytes (natToBeBytes n)

/-- RLP list header for a payload of `payloadLen` bytes. -/
def rlpListHeader (payloadLen : Nat) : List Nat :=
  if payloadLen ≤ 55 then [0xc0 + payloadLen]
  else (0xf7 + (natToBeBytes payloadLen).length) :: natToBeBytes payloadLen

/-- RLP list framing of an already-concatenated payload. -/
def rlpEncodeListPayload (payload : List Nat) : List Nat :=
  rlpListHeader payload.length ++ payload

/-- RLP encoding of a list whose items are byte strings. -/
def rlpEncodeStringList (ss : List (List Nat)) : List Nat :=
  rlpEncodeListPayload ((ss.map rlpEncodeBytes).join)

/-- `rlp::DecoderError` variants reachable from the tx7e decoder, plus the
`Custom` messages used in `Tx7eTransaction::decode`. -/
inductive DecErr where
  | rlpIsTooShort
  | rlpExpectedToBeList
  | rlpExpectedToBeData
  | rlpIncorrectListLen
  | rlpInvalidIndirection
  | rlpIsTooBig
  | rlpDataLenWithZeroPrefix
  | rlpListLenWithZeroPrefix
  | custom (msg : String)
deriving DecidableEq, Repr

/-- Header and claimed payload length of the RLP item at the front of `data`. -/
structure PayloadInfo where
  headerLen : Nat
  valueLen : Nat
deriving DecidableEq, Repr

/-- `PayloadInfo::from` of the `rlp` crate: classify the leading byte and
compute header and payload lengths, with the canonicality checks (no
zero-prefixed length, long form only for payloads over 55 bytes).  The
`8 < lol` test is `decode_usize`'s size check: with `lol ≤ rest.length` the
length slice `rest.take lol` has exactly `lol` bytes. -/
def payloadInfo (data : List Nat) : Except DecErr PayloadInfo :=
  match data with
  | [] => .error .rlpIsTooShort
  | b :: rest =>
    if b < 0x80 then .ok ⟨0, 1⟩
    else if b ≤ 0xb7 then .ok ⟨1, b - 0x80⟩
    else if b ≤ 0xbf then
      let lol := b - 0xb7
      if rest = [] then .error .rlpIsTooShort
      else if rest.headI = 0 then .error .rlpDataLenWithZeroPrefix
      else if rest.length < lol then .error .rlpIsTooShort
      else if 8 < lol then .error .rlpIsTooBig
      else if beBytesToNat (rest.take lol) ≤ 55 then .error .rlpInvalidIndirection
      else .ok ⟨1 + lol, beBytesToNat (rest.take lol)⟩
    else if b ≤ 0xf7 then .ok ⟨1, b - 0xc0⟩
    else
      let lol := b - 0xf7
      if rest = [] then .error .rlpIsTooShort
      else if rest.headI = 0 then .error .rlpListLenWithZeroPrefix
      else if rest.length < lol then .error .rlpIsTooShort
      else if 8 < lol then .error .rlpIsTooBig
      else if beBytesToNat (rest.take lol) ≤ 55 then .error .rlpInvalidIndirection
      else .ok ⟨1 + lol, beBytesToNat (rest.take lol)⟩

/-- Split a list payload into its raw item slices (the walk performed by
`Rlp::item_count` / `Rlp::at`).  The fuel argument only bounds the recursion;
every item consumes at least one byte, so `fuel = data.length` is enough. -/
def splitItems : Nat → List Nat → Except DecErr (List (List Nat))
  | _, [] => .ok []
  | 0, _ :: _ => .error .rlpIsTooShort
  | fuel + 1, b :: rest =>
    match payloadInfo (b :: rest) with
    | .error e => .error e
    | .ok info =>
      let itemLen := info.headerLen + info.valueLen
      if (b :: rest).length < itemLen then .error .rlpIsTooShort
      else
        match splitItems fuel ((b :: rest).drop itemLen) with
        | .error e => .error e
        | .ok items => .ok ((b :: rest).take itemLen :: items)

/-- Interpret `data` as an RLP list and return the raw item slices
(`Rlp::new(data)` followed by `item_count` / `at` navigation). -/
def rlpListItems (data : List Nat) : Except DecErr (List (List Nat)) :=
  match payloadInfo data with
  | .error e => .error e
  | .ok info =>
    if data.headI < 0xc0 then .error .rlpExpectedToBeList
    else if data.length < info.headerLen + info.valueLen then .error .rlpIsTooShort
    else splitItems info.valueLen ((data.drop info.headerLen).take info.valueLen)

/-- `BasicDecoder::decode_value` on one item slice: the payload bytes of a
data (string) item, with the canonical single-byte check. -/
def rlpDecodeValue (item : List Nat) : Except DecErr (List Nat) :=
  match payloadInfo item with
  | .error e => .error e
  | .ok info =>
    if item.headI < 0x80 then .ok [item.headI]
    else if 0xc0 ≤ item.headI then .error .rlpExpectedToBeData
    else if item.length < info.headerLen + info.valueLen then .error .rlpIsTooShort
    else if item.headI = 0x81 ∧ ((item.drop info.headerLen).take info.valueLen).headI < 0x80 then
      .error .rlpInvalidIndirection
    else .ok ((item.drop info.headerLen).take info.valueLen)

/-- `impl Decodable for u64` on one item slice: a string payload of at most
8 bytes with no leading zero, read big-endian. -/
def rlpDecodeU64 (item : List Nat) : Except DecErr Nat :=
  match rlpDecodeValue item with
  | .error e => .error e
  | .ok bytes =>
    if bytes.length > 8 then .error .rlpIsTooBig
    else if bytes ≠ [] ∧ bytes.headI = 0 then .error .rlpInvalidIndirection
    else .ok (beBytesToNat bytes)

/-! ### The 0x7e transaction (tx7e.rs) -/

/-- `Tx7eTransaction` (tx7e.rs lines 13-40). -/
structure Tx7eTransaction where
  chain_id : Nat
  target : Address
  value : U256
  data : List Nat
  gas_limit : Nat
  l1_block_number : Nat
  l1_timestamp : Nat
  l1_base_fee : U256
  l1_gas_price : U256
  l1_gas_used : Nat
  l1_fee : U256
  refund_address : Address
  source_hash : List Nat
deriving DecidableEq, Repr

/-- The 13 field byte strings appended by `rlp_append` (tx7e.rs lines 116-131),
in order: `u64` fields contribute their minimal big-endian bytes, `U256`
fields their full 32 bytes (`to_big_endian`), byte-array fields their raw
bytes. -/
def Tx7eTransaction.fieldBytes (tx : Tx7eTransaction) : List (List Nat) :=
  [natToBeBytes tx.chain_id,
   tx.target.as_bytes,
   tx.value.to_big_endian,
   tx.data,
   natToBeBytes tx.gas_limit,
   natToBeBytes tx.l1_block_number,
   natToBeBytes tx.l1_timestamp,
   tx.l1_base_fee.to_big_endian,
   tx.l1_gas_price.to_big_endian,
   natToBeBytes tx.l1_gas_used,
   tx.l1_fee.to_big_endian,
   tx.refund_address.as_bytes,
   tx.source_hash]

/-- `Tx7eTransaction::rlp_encode` (tx7e.rs lines 85-89): the 13-item list
encoding produced by `rlp_append` (lines 115-132). -/
def Tx7eTransaction.rlp_encode (tx : Tx7eTransaction) : List Nat :=
  rlpEncodeStringList tx.fieldBytes

/-- Digest input of `Tx7eTransaction::hash` (tx7e.rs lines 76-82): the hasher
is updated with exactly `self.rlp_encode()`.  The Keccak-256 compression
itself is kept abstract (see `hashWith`); the claims under verification only
concern the preimage. -/
def Tx7eTransaction.hashInput (tx : Tx7eTransaction) : List Nat := tx.rlp_encode

/-- `Tx7eTransaction::hash` parameterised by the digest function. -/
def Tx7eTransaction.hashWith (keccak : List Nat → List Nat) (tx : Tx7eTransaction) : List Nat :=
  keccak tx.hashInput

/-- `Tx7eTransaction::total_l1_cost` (tx7e.rs lines 92-94). -/
def Tx7eTransaction.total_l1_cost (tx : Tx7eTransaction) : U256 := tx.l1_fee

/-- `Tx7eTransaction::decode` (tx7e.rs lines 134-190): 13-item arity check,
the 13 `val_at` reads in order, then the three length checks, then field
assembly with `U256::from_big_endian`. -/
def Tx7eTransaction.decode (rlpData : List Nat) : Except DecErr Tx7eTransaction :=
  match rlpListItems rlpData with
  | .error e => .error e
  | .ok items =>
    if items.length = 13 then
      match items with
      | [i0, i1, i2, i3, i4, i5, i6, i7, i8, i9, i10, i11, i12] =>
        (rlpDecodeU64 i0).bind fun chain_id =>
        (rlpDecodeValue i1).bind fun target_bytes =>
        (rlpDecodeValue i2).bind fun value_bytes =>
        (rlpDecodeValue i3).bind fun data_bytes =>
        (rlpDecodeU64 i4).bind fun gas_limit =>
        (rlpDecodeU64 i5).bind fun l1_block_number =>
        (rlpDecodeU64 i6).bind fun l1_timestamp =>
        (rlpDecodeValue i7).bind fun l1_base_fee_bytes =>
        (rlpDecodeValue i8).bind fun l1_gas_price_bytes =>
        (rlpDecodeU64 i9).bind fun l1_gas_used =>
        (rlpDecodeValue i10).bind fun l1_fee_bytes =>
        (rlpDecodeValue i11).bind fun refund_address_bytes =>
        (rlpDecodeValue i12).bind fun source_hash =>
        if target_bytes.length ≠ 20 then .error (.custom "Invalid target address length")
        else if refund_address_bytes.length ≠ 20 then
          .error (.custom "Invalid refund address length")
        else if source_hash.length ≠ 32 then .error (.custom "Invalid source hash length")
        else
          .ok { chain_id := chain_id
                target := ⟨target_bytes⟩
                value := U256.from_big_endian value_bytes
                data := data_bytes
                gas_limit := gas_limit
                l1_block_number := l1_block_number
                l1_timestamp := l1_timestamp
                l1_base_fee := U256.from_big_endian l1_base_fee_bytes
                l1_gas_price := U256.from_big_endian l1_gas_price_bytes
                l1_gas_used := l1_gas_used
                l1_fee := U256.from_big_endian l1_fee_bytes
                refund_address := ⟨refund_address_bytes⟩
                source_hash := source_hash }
      | _ => .error .rlpIncorrectListLen
    else .error .rlpIncorrectListLen

/-- Errors of `Tx7eParser::parse` (tx7e.rs lines 197-211, `anyhow` messages). -/
inductive ParseErr where
  | empty
  | wrongType (got : Nat)
  | rlp (e : DecErr)
deriving DecidableEq, Repr

/-- `Tx7eParser::parse` (tx7e.rs lines 197-211): `Empty` on zero-length input,
`WrongType` unless the first byte is 0x7e, then RLP-decode the rest. -/
def Tx7eParser.parse (raw_tx : List Nat) : Except ParseErr Tx7eTransaction :=
  match raw_tx with
  | [] => .error .empty
  | b :: rest =>
    if b ≠ 0x7e then .error (.wrongType b)
    else
      match Tx7eTransaction.decode rest with
      | .error e => .error (.rlp e)
      | .ok tx => .ok tx

/-- `TransactionValidation` (tx7e.rs lines 287-291). -/
structure TransactionValidation where
  isValid : Bool
  errors : List String
deriving DecidableEq, Repr

/-- `Tx7eParser::validate_transaction` (tx7e.rs lines 214-256): the seven
checks run unconditionally in order, each appending one message on failure;
`isValid` is `errors.is_empty()`. -/
def Tx7eParser.validate_transaction (tx : Tx7eTransaction) : TransactionValidation :=
  let errors :=
    (if tx.chain_id = 0 then ["Invalid chain ID: cannot be zero"] else []) ++
    (if tx.target.as_bytes = List.replicate 20 0 then
      ["Invalid target address: cannot be zero address"] else []) ++
    (if tx.gas_limit = 0 then ["Invalid gas limit: cannot be zero"] else []) ++
    (if tx.l1_block_number = 0 then ["Invalid L1 block number: cannot be zero"] else []) ++
    (if tx.l1_timestamp = 0 then ["Invalid L1 timestamp: cannot be zero"] else []) ++
    (if tx.l1_base_fee = U256.zero then ["Invalid L1 base fee: cannot be zero"] else []) ++
    (if tx.source_hash = List.replicate 32 0 then ["Invalid source hash: cannot be zero"] else [])
  ⟨errors.isEmpty, errors⟩

/-- Lower-case hex digit character of a value below 16 (`{:02x}` formatting). -/
def hexDigitChar (n : Nat) : Char :=
  if n < 10 then Char.ofNat (0x30 + n) else Char.ofNat (0x57 + n)

/-- Two-digit lower-case hex rendering of a byte (`{:02x}`). -/
def hexByte (n : Nat) : String :=
  String.mk [hexDigitChar (n / 16 % 16), hexDigitChar (n % 16)]

/-- Debug rendering of a `DecoderError` (the `{:?}` in tx7e.rs line 210). -/
def decErrMessage : DecErr → String
  | .rlpIsTooShort => "RlpIsTooShort"
  | .rlpExpectedToBeList => "RlpExpectedToBeList"
  | .rlpExpectedToBeData => "RlpExpectedToBeData"
  | .rlpIncorrectListLen => "RlpIncorrectListLen"
  | .rlpInvalidIndirection => "RlpInvalidIndirection"
  | .rlpIsTooBig => "RlpIsTooBig"
  | .rlpDataLenWithZeroPrefix => "RlpDataLenWithZeroPrefix"
  | .rlpListLenWithZeroPrefix => "RlpListLenWithZeroPrefix"
  | .custom msg => "Custom(" ++ msg ++ ")"

/-- The `anyhow` error text of each `Tx7eParser::parse` failure. -/
def parseErrMessage : ParseErr → String
  | .empty => "Empty transaction data"
  | .wrongType got => "Invalid transaction type: expected 0x7e, got 0x" ++ hexByte got
  | .rlp e => "RLP decoding failed: " ++ decErrMessage e

/-- `ProcessingResult` (tx7e.rs lines 383-390). -/
structure ProcessingResult where
  success : Bool
  error : String
  transaction : Option Tx7eTransaction
  gas_used : Nat
  l1_cost : U256
deriving DecidableEq, Repr

/-- `Tx7eProcessor::calculate_gas_usage` (tx7e.rs lines 358-373): `u64`
arithmetic (each step reduced modulo `2 ^ 64`), `21000` base, `16` gas per
data byte when data is non-empty, `9000` extra for a value transfer, capped
by the gas limit. -/
def Tx7eProcessor.calculate_gas_usage (tx : Tx7eTransaction) : Nat :=
  let gas : Nat := 21000
  let gas := if tx.data ≠ [] then (gas + tx.data.length % U64MOD * 16 % U64MOD) % U64MOD else gas
  let gas := if tx.value ≠ U256.zero then (gas + 9000) % U64MOD else gas
  min gas tx.gas_limit

/-- `Tx7eProcessor::process_transaction` (tx7e.rs lines 319-355): parse, then
validate, then compute gas and pass the L1 fee through. -/
def Tx7eProcessor.process_transaction (raw_tx : List Nat) : ProcessingResult :=
  match Tx7eParser.parse raw_tx with
  | .error e =>
    { success := false
      error := "Parsing failed: " ++ parseErrMessage e
      transaction := none
      gas_used := 0
      l1_cost := U256.zero }
  | .ok tx =>
    let validation := Tx7eParser.validate_transaction tx
    if !validation.isValid then
      { success := false
        error := "Validation failed: " ++ String.intercalate ", " validation.errors
        transaction := none
        gas_used := 0
        l1_cost := U256.zero }
    else
      { success := true
        error := ""
        transaction := some tx
        gas_used := Tx7eProcessor.calculate_gas_usage tx
        l1_cost := tx.total_l1_cost }

/-- Well-formedness of a `Tx7eTransaction` as built by the Rust code: `u64`
fields below `2 ^ 64`, addresses of 20 bytes, `U256` fields of 32 bytes, the
source hash of 32 bytes, and calldata within the Rust allocation bound
(`isize::MAX`, i.e. below `2 ^ 63` bytes). -/
def ValidEnvelope (tx : Tx7eTransaction) : Prop :=
  tx.chain_id < 2 ^ 64 ∧ tx.gas_limit < 2 ^ 64 ∧ tx.l1_block_number < 2 ^ 64 ∧
  tx.l1_timestamp < 2 ^ 64 ∧ tx.l1_gas_used < 2 ^ 64 ∧
  tx.target.valid ∧ tx.refund_address.valid ∧
  tx.value.valid ∧ tx.l1_base_fee.valid ∧ tx.l1_gas_price.valid ∧ tx.l1_fee.valid ∧
  tx.source_hash.length = 32 ∧ bytesWf tx.source_hash ∧
  bytesWf tx.data ∧ tx.data.length < 2 ^ 63

instance ValidEnvelope.dec (tx : Tx7eTransaction) : Decidable (ValidEnvelope tx) := by
  unfold ValidEnvelope; infer_instance

/-- Field well-formedness without the fixed-length constraints on target,
refund address and source hash (used for the decode error claims, where those
lengths are deliberately wrong). -/
def WfFields (tx : Tx7eTransaction) : Prop :=
  tx.chain_id < 2 ^ 64 ∧ tx.gas_limit < 2 ^ 64 ∧ tx.l1_block_number < 2 ^ 64 ∧
  tx.l1_timestamp < 2 ^ 64 ∧ tx.l1_gas_used < 2 ^ 64 ∧
  bytesWf tx.target.bytes ∧ tx.target.bytes.length < 2 ^ 60 ∧
  bytesWf tx.refund_address.bytes ∧ tx.refund_address.bytes.length < 2 ^ 60 ∧
  bytesWf tx.value.bytes ∧ tx.value.bytes.length < 2 ^ 60 ∧
  bytesWf tx.l1_base_fee.bytes ∧ tx.l1_base_fee.bytes.length < 2 ^ 60 ∧
  bytesWf tx.l1_gas_price.bytes ∧ tx.l1_gas_price.bytes.length < 2 ^ 60 ∧
  bytesWf tx.l1_fee.bytes ∧ tx.l1_fee.bytes.length < 2 ^ 60 ∧
  bytesWf tx.source_hash ∧ tx.source_hash.length < 2 ^ 60 ∧
  bytesWf tx.data ∧ tx.data.length < 2 ^ 60

instance WfFields.dec (tx : Tx7eTransaction) : Decidable (WfFields tx) := by
  unfold WfFields; infer_instance

/-! ### Support for concrete evaluation and the claim theorems -/

instance exceptDecEq {e a : Type} [DecidableEq e] [DecidableEq a] :
    DecidableEq (Except e a) := fun x y =>
  match x, y with
  | .ok u, .ok v =>
    if h : u = v then isTrue (by rw [h]) else isFalse (fun hc => h (Except.ok.inj hc))
  | .error u, .error v =>
    if h : u = v then isTrue (by rw [h]) else isFalse (fun hc => h (Except.error.inj hc))
  | .ok _, .error _ => isFalse (fun hc => Except.noConfusion hc)
  | .error _, .ok _ => isFalse (fun hc => Except.noConfusion hc)


/-- The 20-byte target address of the repository's mock transaction
(tx7e.rs lines 396-412). -/
def mockTarget : Address :=
  ⟨[0x12, 0x34, 0x56, 0x78, 0x90, 0x12, 0x34, 0x56, 0x78, 0x90,
    0x12, 0x34, 0x56, 0x78, 0x90, 0x12, 0x34, 0x56, 0x78, 0x90]⟩

/-- The 20-byte refund address of the repository's mock transaction. -/
def mockRefund : Address :=
  ⟨[0xab, 0xcd, 0xef, 0xab, 0xcd, 0xef, 0xab, 0xcd, 0xef, 0xab,
    0xcd, 0xef, 0xab, 0xcd, 0xef, 0xab, 0xcd, 0xef, 0xab, 0xcd]⟩

/-- The mock transaction built by `create_mock_transaction` (tx7e.rs lines 396-412):
gas limit 100000, 4 bytes of calldata, a nonzero value. -/
def mockTx : Tx7eTransaction :=
  { chain_id := 42161
    target := mockTarget
    value := U256.from_u64 1000000000000000000
    data := [0x60, 0x2b, 0x57, 0xfd]
    gas_limit := 100000
    l1_block_number := 12345
    l1_timestamp := 1640995200
    l1_base_fee := U256.from_u64 20000000000
    l1_gas_price := U256.from_u64 25000000000
    l1_gas_used := 50000
    l1_fee := U256.from_u64 1000000000000000
    refund_address := mockRefund
    source_hash := List.replicate 32 1 }


/-- Configuration exhibiting `u64` wrap-around in the L1 gas-fee computation:
`l1_calldata_cost = 2 ^ 62`, so four non-zero input bytes give a raw gas of
`2 ^ 64`, which wraps to `0` in the Rust `u64` arithmetic. -/
def c3Cfg : ArbitrumConfig :=
  { ArbitrumConfig.defaultConfig with
    l1_base_fee := 1
    gas_price_components :=
      { GasPriceComponents.defaultComponents with l1_calldata_cost := 2 ^ 62 } }

/-- The mock transaction with `2 ^ 60` bytes of calldata: `dataLen * 16` is
`2 ^ 64`, which wraps to `0` in the `u64` gas computation. -/
def c5Tx : Tx7eTransaction := { mockTx with data := List.replicate (2 ^ 60) 1 }

/-- The mock transaction with `chain_id = 0` (validation scenario). -/
def c6Tx : Tx7eTransaction := { mockTx with chain_id := 0 }

/-- The mock transaction with a 19-byte target address. -/
def badTx : Tx7eTransaction := { mockTx with target := ⟨List.replicate 19 1⟩ }

/-- 40 characters that are not all hex digits but that `from_hex` accepts:
twenty `"+1"` chunks, each parsed by `u8::from_str_radix` as `1`. -/
def c9In : List Nat := (List.replicate 20 [0x2b, 0x31]).join

/-- 40 hex characters (`"a"` forty times). -/
def c9Good : List Nat := List.replicate 40 0x61


/-! ### Basic numeric lemmas -/

theorem natToBeBytesAux_fuel (f1 : Nat) : ∀ (f2 n : Nat), n ≤ f1 → n ≤ f2 →
    natToBeBytesAux f1 n = natToBeBytesAux f2 n := by
  induction f1 using Nat.strong_induction_on with
  | _ f1 ih =>
    intro f2 n h1 h2
    rcases Nat.eq_zero_or_pos n with rfl | hn
    · cases f1 <;> cases f2 <;> simp [natToBeBytesAux]
    · obtain ⟨g1, rfl⟩ : ∃ g1, f1 = g1 + 1 := ⟨f1 - 1, by omega⟩
      obtain ⟨g2, rfl⟩ : ∃ g2, f2 = g2 + 1 := ⟨f2 - 1, by omega⟩
      have hq : n / 256 < n := Nat.div_lt_self hn (by norm_num)
      simp only [natToBeBytesAux, if_neg (by omega : ¬n = 0)]
      rw [ih g1 (by omega) g2 (n / 256) (by omega) (by omega)]

theorem natToBeBytes_eq (n : Nat) :
    natToBeBytes n = if n = 0 then [] else natToBeBytes (n / 256) ++ [n % 256] := by
  rcases Nat.eq_zero_or_pos n with rfl | hn
  · simp [natToBeBytes, natToBeBytesAux]
  · obtain ⟨m, rfl⟩ : ∃ m, n = m + 1 := ⟨n - 1, by omega⟩
    unfold natToBeBytes
    rw [if_neg (by omega : ¬m + 1 = 0)]
    simp only [natToBeBytesAux, if_neg (by omega : ¬m + 1 = 0)]
    rw [natToBeBytesAux_fuel m ((m + 1) / 256) ((m + 1) / 256)
      (by have := Nat.div_lt_self hn (by norm_num : (1:Nat) < 256); omega) (le_refl _)]

theorem take_append_self {α : Type} (l t : List α) : (l ++ t).take l.length = l := by
  induction l with
  | nil => rfl
  | cons a l ih => simp [List.take, ih]

theorem drop_append_self {α : Type} (l t : List α) : (l ++ t).drop l.length = t := by
  induction l with
  | nil => rfl
  | cons a l ih => simpa using ih

theorem beBytesToNat_append (u v : List Nat) :
    beBytesToNat (u ++ v) = beBytesToNat u * 256 ^ v.length + beBytesToNat v := by
  induction u with
  | nil => simp [beBytesToNat]
  | cons b u ih =>
    rw [List.cons_append, beBytesToNat, ih, beBytesToNat, List.length_append]
    rw [pow_add]
    ring

theorem beBytesToNat_lt (l : List Nat) (h : bytesWf l) : beBytesToNat l < 256 ^ l.length := by
  induction l with
  | nil => simp [beBytesToNat]
  | cons b rest ih =>
    have hb : b < 256 := h b (by simp)
    have hr : beBytesToNat rest < 256 ^ rest.length := ih (fun x hx => h x (by simp [hx]))
    simp only [beBytesToNat, List.length_cons, pow_succ]
    calc b * 256 ^ rest.length + beBytesToNat rest
        < b * 256 ^ rest.length + 256 ^ rest.length := by omega
      _ = (b + 1) * 256 ^ rest.length := by ring
      _ ≤ 256 * 256 ^ rest.length := by
          exact Nat.mul_le_mul_right _ (by omega)
      _ = 256 ^ rest.length * 256 := by ring

theorem natToBeBytes_spec (n : Nat) :
    beBytesToNat (natToBeBytes n) = n ∧ bytesWf (natToBeBytes n) := by
  induction n using Nat.strong_induction_on with
  | _ n ih =>
    by_cases h : n = 0
    · subst h; simp [natToBeBytes, natToBeBytesAux, beBytesToNat, bytesWf]
    · have hlt : n / 256 < n := Nat.div_lt_self (Nat.pos_of_ne_zero h) (by norm_num)
      obtain ⟨ihv, ihw⟩ := ih (n / 256) hlt
      rw [natToBeBytes_eq, if_neg h]
      constructor
      · rw [beBytesToNat_append, ihv]
        simp [beBytesToNat]
        omega
      · intro b hb
        rcases List.mem_append.mp hb with h1 | h2
        · exact ihw b h1
        · simp at h2; omega

theorem beBytesToNat_natToBeBytes (n : Nat) : beBytesToNat (natToBeBytes n) = n :=
  (natToBeBytes_spec n).1

theorem natToBeBytes_wf (n : Nat) : bytesWf (natToBeBytes n) :=
  (natToBeBytes_spec n).2

theorem natToBeBytes_length_le (n k : Nat) (h : n < 256 ^ k) :
    (natToBeBytes n).length ≤ k := by
  induction n using Nat.strong_induction_on generalizing k with
  | _ n ih =>
    by_cases h0 : n = 0
    · subst h0; simp [natToBeBytes, natToBeBytesAux]
    · have hlt : n / 256 < n := Nat.div_lt_self (Nat.pos_of_ne_zero h0) (by norm_num)
      rw [natToBeBytes_eq, if_neg h0]
      simp only [List.length_append, List.length_singleton]
      rcases k with _ | k
      · simp at h; omega
      · have : n / 256 < 256 ^ k := by
          rw [pow_succ] at h
          exact Nat.div_lt_of_lt_mul (by omega)
        have := ih (n / 256) hlt k this
        omega

theorem natToBeBytes_ne_nil (n : Nat) (h : n ≠ 0) : natToBeBytes n ≠ [] := by
  rw [natToBeBytes_eq]
  simp [h]

theorem natToBeBytes_head_ne_zero (n : Nat) (h : n ≠ 0) :
    ∃ b t, natToBeBytes n = b :: t ∧ b ≠ 0 := by
  induction n using Nat.strong_induction_on with
  | _ n ih =>
    have hlt : n / 256 < n := Nat.div_lt_self (Nat.pos_of_ne_zero h) (by norm_num)
    by_cases hq : n / 256 = 0
    · refine ⟨n % 256, [], ?_, ?_⟩
      · rw [natToBeBytes_eq, if_neg h]
        rw [natToBeBytes_eq, if_pos hq]
        simp
      · have : n < 256 := by omega
        omega
    · obtain ⟨b, t, heq, hb⟩ := ih (n / 256) hlt hq
      refine ⟨b, t ++ [n % 256], ?_, hb⟩
      rw [natToBeBytes_eq]
      simp [h, heq]

theorem beFixed_spec (w n : Nat) :
    beBytesToNat (beFixed w n) = n % 256 ^ w ∧ (beFixed w n).length = w ∧
      bytesWf (beFixed w n) := by
  induction w generalizing n with
  | zero => simp [beFixed, beBytesToNat, bytesWf, Nat.mod_one]
  | succ w ih =>
    obtain ⟨ihv, ihl, ihw⟩ := ih (n / 256)
    refine ⟨?_, ?_, ?_⟩
    · rw [beFixed, beBytesToNat_append, ihv]
      simp only [beBytesToNat, List.length_singleton, List.length_nil, pow_zero, pow_one,
        mul_one, pow_succ]
      have h1 : n % (256 ^ w * 256) = n % 256 + 256 * (n / 256 % 256 ^ w) := by
        rw [mul_comm (256 ^ w) 256, Nat.mod_mul]
      omega
    · simp [beFixed, ihl]
    · intro b hb
      rw [beFixed] at hb
      rcases List.mem_append.mp hb with h1 | h2
      · exact ihw b h1
      · simp at h2; omega

theorem beFixed_val (w n : Nat) : beBytesToNat (beFixed w n) = n % 256 ^ w :=
  (beFixed_spec w n).1

theorem beFixed_length (w n : Nat) : (beFixed w n).length = w := (beFixed_spec w n).2.1

theorem beFixed_wf (w n : Nat) : bytesWf (beFixed w n) := (beFixed_spec w n).2.2

theorem beFixed_split (a b n : Nat) :
    beFixed (a + b) n = beFixed a (n / 256 ^ b) ++ beFixed b n := by
  induction b generalizing n with
  | zero => simp [beFixed]
  | succ b ih =>
    have : a + (b + 1) = (a + b) + 1 := by omega
    rw [this, beFixed, ih (n / 256), beFixed]
    rw [Nat.div_div_eq_div_mul]
    rw [List.append_assoc]
    ring_nf

theorem beFixed_zero_eq_replicate (w : Nat) : beFixed w 0 = List.replicate w 0 := by
  induction w with
  | zero => rfl
  | succ w ih =>
    rw [beFixed, Nat.zero_div, Nat.zero_mod, ih, List.replicate_succ']

theorem from_u64_bytes (n : Nat) (h : n < 2 ^ 64) :
    (U256.from_u64 n).bytes = beFixed 32 n := by
  have h32 : (32 : Nat) = 24 + 8 := by norm_num
  rw [U256.from_u64, h32, beFixed_split 24 8 n]
  have : n / 256 ^ 8 = 0 := by
    apply Nat.div_eq_of_lt
    calc n < 2 ^ 64 := h
      _ = 256 ^ 8 := by norm_num
  rw [this, beFixed_zero_eq_replicate]

theorem from_u64_toNat (n : Nat) (h : n < 2 ^ 64) : (U256.from_u64 n).toNat = n := by
  rw [U256.toNat, from_u64_bytes n h, beFixed_val]
  exact Nat.mod_eq_of_lt (by calc n < 2 ^ 64 := h
                                _ ≤ 256 ^ 32 := by norm_num)

theorem from_u64_valid (n : Nat) : (U256.from_u64 n).valid := by
  constructor
  · simp [U256.from_u64, beFixed_length]
  · intro b hb
    simp only [U256.from_u64] at hb
    rcases List.mem_append.mp hb with h1 | h2
    · simp [List.eq_of_mem_replicate h1]
    · exact beFixed_wf 8 n b h2

theorem leVal_append (u v : List Nat) :
    leVal (u ++ v) = leVal u + 256 ^ u.length * leVal v := by
  induction u with
  | nil => simp [leVal]
  | cons b u ih =>
    rw [List.cons_append, leVal, ih, leVal, List.length_cons, pow_succ]
    ring

theorem beBytesToNat_eq_leVal_reverse (l : List Nat) :
    beBytesToNat l = leVal l.reverse := by
  induction l with
  | nil => rfl
  | cons b rest ih =>
    rw [beBytesToNat, List.reverse_cons, leVal_append, ih, List.length_reverse]
    simp [leVal]
    ring

theorem leVal_lt (l : List Nat) (h : ∀ b ∈ l, b < 256) : leVal l < 256 ^ l.length := by
  induction l with
  | nil => simp [leVal]
  | cons b rest ih =>
    have hb : b < 256 := h b (by simp)
    have hr := ih (fun x hx => h x (by simp [hx]))
    simp only [leVal, List.length_cons, pow_succ]
    calc b + 256 * leVal rest < 256 + 256 * leVal rest := by omega
      _ = 256 * (leVal rest + 1) := by ring
      _ ≤ 256 * 256 ^ rest.length := by
          exact Nat.mul_le_mul_left _ (by omega)
      _ = 256 ^ rest.length * 256 := by ring

theorem limbsVal_append (u v : List Nat) :
    limbsVal (u ++ v) = limbsVal u + (2 ^ 64) ^ u.length * limbsVal v := by
  induction u with
  | nil => simp [limbsVal]
  | cons l u ih =>
    rw [List.cons_append, limbsVal, ih, limbsVal, List.length_cons, pow_succ]
    ring

theorem limbsVal_lt (l : List Nat) (h : limbsWf l) : limbsVal l < (2 ^ 64) ^ l.length := by
  induction l with
  | nil => simp [limbsVal]
  | cons x rest ih =>
    have hx : x < 2 ^ 64 := h x (by simp)
    have hr := ih (fun y hy => h y (by simp [hy]))
    simp only [limbsVal, List.length_cons, pow_succ]
    calc x + 2 ^ 64 * limbsVal rest < 2 ^ 64 + 2 ^ 64 * limbsVal rest := by omega
      _ = 2 ^ 64 * (limbsVal rest + 1) := by ring
      _ ≤ 2 ^ 64 * (2 ^ 64) ^ rest.length := by
          exact Nat.mul_le_mul_left _ (by omega)
      _ = (2 ^ 64) ^ rest.length * 2 ^ 64 := by ring

theorem limbsVal_eq_zero_iff (l : List Nat) : limbsVal l = 0 ↔ ∀ x ∈ l, x = 0 := by
  induction l with
  | nil => simp [limbsVal]
  | cons x rest ih =>
    simp only [limbsVal, List.mem_cons]
    constructor
    · intro h
      have hx : x = 0 := by omega
      have hr : limbsVal rest = 0 := by omega
      exact fun y hy => hy.elim (fun he => he ▸ hx) (fun hm => ih.mp hr y hm)
    · intro h
      have hx : x = 0 := h x (Or.inl rfl)
      have hr : limbsVal rest = 0 := ih.mpr (fun y hy => h y (Or.inr hy))
      omega

/-! ### RLP round-trip lemmas -/

theorem rlpEncodeBytes_shape (s : List Nat) :
    (s.length = 1 ∧ s.headI < 0x80 ∧ rlpEncodeBytes s = s) ∨
    (¬(s.length = 1 ∧ s.headI < 0x80) ∧ s.length ≤ 55 ∧
      rlpEncodeBytes s = (0x80 + s.length) :: s) ∨
    (55 < s.length ∧
      rlpEncodeBytes s = (0xb7 + (natToBeBytes s.length).length) ::
        (natToBeBytes s.length ++ s)) := by
  unfold rlpEncodeBytes
  by_cases h1 : s.length = 1 ∧ s.headI < 0x80
  · left; exact ⟨h1.1, h1.2, by rw [if_pos h1]⟩
  · by_cases h2 : s.length ≤ 55
    · right; left; exact ⟨h1, h2, by rw [if_neg h1, if_pos h2]⟩
    · right; right
      exact ⟨by omega, by rw [if_neg h1, if_neg h2]⟩

theorem rlpEncodeBytes_length_le (s : List Nat) (h : s.length < 2 ^ 64) :
    (rlpEncodeBytes s).length ≤ s.length + 9 := by
  rcases rlpEncodeBytes_shape s with ⟨_, _, he⟩ | ⟨_, _, he⟩ | ⟨_, he⟩
  · rw [he]; omega
  · rw [he]; simp
  · rw [he]
    have : (natToBeBytes s.length).length ≤ 8 :=
      natToBeBytes_length_le _ 8 (by calc s.length < 2 ^ 64 := h
                                       _ = 256 ^ 8 := by norm_num)
    simp only [List.length_cons, List.length_append]
    omega

theorem rlpEncodeBytes_ne_nil (s : List Nat) : rlpEncodeBytes s ≠ [] := by
  rcases rlpEncodeBytes_shape s with ⟨h1, _, he⟩ | ⟨_, _, he⟩ | ⟨_, he⟩ <;> rw [he]
  · intro hc; rw [hc] at h1; simp at h1
  · simp
  · simp

/-- Header/payload structure recognised by `payloadInfo` at the front of an
encoded string item followed by arbitrary further bytes. -/
theorem payloadInfo_enc (s rest : List Nat) (hwf : bytesWf s) (hlen : s.length < 2 ^ 64) :
    ∃ hdr, rlpEncodeBytes s = hdr ++ s ∧
      payloadInfo (rlpEncodeBytes s ++ rest) = .ok ⟨hdr.length, s.length⟩ := by
  rcases rlpEncodeBytes_shape s with ⟨h1, h2, he⟩ | ⟨h1, h2, he⟩ | ⟨h1, he⟩
  · refine ⟨[], by simpa using he, ?_⟩
    obtain ⟨b, hb⟩ : ∃ b, s = [b] := by
      cases s with
      | nil => simp at h1
      | cons x t => cases t with
        | nil => exact ⟨x, rfl⟩
        | cons y u => simp at h1
    subst hb
    simp only [List.headI] at h2
    rw [he]
    simp only [List.cons_append, payloadInfo]
    rw [if_pos h2]
    simp
  · refine ⟨[0x80 + s.length], by simpa using he, ?_⟩
    rw [he]
    simp only [List.cons_append, payloadInfo]
    rw [if_neg (by omega), if_pos (by omega)]
    have hh : 0x80 + s.length - 0x80 = s.length := by omega
    rw [hh]
    simp
  · have hnn : s.length ≠ 0 := by omega
    have hne := natToBeBytes_ne_nil s.length hnn
    obtain ⟨b0, t0, ht, hb0⟩ := natToBeBytes_head_ne_zero s.length hnn
    have hlol : (natToBeBytes s.length).length ≤ 8 := by
      apply natToBeBytes_length_le
      calc s.length < 2 ^ 64 := hlen
        _ = 256 ^ 8 := by norm_num
    have hlol1 : 1 ≤ (natToBeBytes s.length).length := by
      rw [ht]; simp
    refine ⟨(0xb7 + (natToBeBytes s.length).length) :: natToBeBytes s.length,
      by rw [he]; simp, ?_⟩
    rw [he]
    simp only [List.cons_append, payloadInfo]
    rw [if_neg (by omega), if_neg (by omega), if_pos (by omega)]
    have harr : natToBeBytes s.length ++ s ++ rest = b0 :: (t0 ++ s ++ rest) := by
      rw [ht]; simp
    have hne2 : natToBeBytes s.length ++ s ++ rest ≠ [] := by rw [harr]; simp
    have hhead : (natToBeBytes s.length ++ s ++ rest).headI ≠ 0 := by
      rw [harr]; simpa using hb0
    have hlen_eq : (natToBeBytes s.length ++ s ++ rest).length =
        (natToBeBytes s.length).length + s.length + rest.length := by
      simp
      omega
    rw [if_neg hne2, if_neg hhead, if_neg (by omega), if_neg (by omega)]
    have htake : (natToBeBytes s.length ++ s ++ rest).take
        (0xb7 + (natToBeBytes s.length).length - 0xb7) = natToBeBytes s.length := by
      have h187 : 0xb7 + (natToBeBytes s.length).length - 0xb7 =
          (natToBeBytes s.length).length := by omega
      rw [h187, List.append_assoc, take_append_self]
    rw [htake, beBytesToNat_natToBeBytes]
    rw [if_neg (by omega)]
    simp only [List.length_cons, Except.ok.injEq, PayloadInfo.mk.injEq]
    exact ⟨by omega, trivial⟩

/-- Decoding an encoded string item returns the original byte string. -/
theorem rlpDecodeValue_enc (s : List Nat) (hwf : bytesWf s) (hlen : s.length < 2 ^ 64) :
    rlpDecodeValue (rlpEncodeBytes s) = .ok s := by
  obtain ⟨hdr, hhdr, hinfo⟩ := payloadInfo_enc s [] hwf hlen
  rw [List.append_nil] at hinfo
  have hlength : (rlpEncodeBytes s).length = hdr.length + s.length := by
    rw [hhdr]; simp
  have htake : ((rlpEncodeBytes s).drop hdr.length).take s.length = s := by
    rw [hhdr, drop_append_self, List.take_length]
  rcases rlpEncodeBytes_shape s with ⟨h1, h2, he⟩ | ⟨h1, h2, he⟩ | ⟨h1, he⟩
  · obtain ⟨b, hb⟩ : ∃ b, s = [b] := by
      cases s with
      | nil => simp at h1
      | cons x t => cases t with
        | nil => exact ⟨x, rfl⟩
        | cons y u => simp at h1
    subst hb
    simp only [List.headI] at h2
    have hhead : (rlpEncodeBytes [b]).headI = b := by rw [he]; rfl
    simp only [rlpDecodeValue, hinfo, hhead]
    rw [if_pos h2]
  · have hhead : (rlpEncodeBytes s).headI = 0x80 + s.length := by rw [he]; rfl
    simp only [rlpDecodeValue, hinfo, hhead]
    rw [if_neg (by omega), if_neg (by omega), if_neg (by omega), htake]
    rw [if_neg ?hcond]
    case hcond =>
      rintro ⟨ha, hb⟩
      exact h1 ⟨by omega, hb⟩
  · have hlol : (natToBeBytes s.length).length ≤ 8 := by
      apply natToBeBytes_length_le
      calc s.length < 2 ^ 64 := hlen
        _ = 256 ^ 8 := by norm_num
    have hlol1 : 1 ≤ (natToBeBytes s.length).length := by
      have := natToBeBytes_ne_nil s.length (by omega)
      cases hq : natToBeBytes s.length with
      | nil => exact absurd hq this
      | cons a t => simp
    have hhead : (rlpEncodeBytes s).headI = 0xb7 + (natToBeBytes s.length).length := by
      rw [he]; rfl
    simp only [rlpDecodeValue, hinfo, hhead]
    rw [if_neg (by omega), if_neg (by omega), if_neg (by omega), htake]
    rw [if_neg ?hcond2]
    case hcond2 =>
      rintro ⟨ha, _⟩
      omega

/-- Decoding an encoded `u64` returns the original value. -/
theorem rlpDecodeU64_enc (n : Nat) (h : n < 2 ^ 64) :
    rlpDecodeU64 (rlpEncodeU64 n) = .ok n := by
  have hwf := natToBeBytes_wf n
  have hlen : (natToBeBytes n).length < 2 ^ 64 := by
    have : (natToBeBytes n).length ≤ 8 := by
      apply natToBeBytes_length_le
      calc n < 2 ^ 64 := h
        _ = 256 ^ 8 := by norm_num
    omega
  have hle8 : (natToBeBytes n).length ≤ 8 := by
    apply natToBeBytes_length_le
    calc n < 2 ^ 64 := h
      _ = 256 ^ 8 := by norm_num
  unfold rlpDecodeU64 rlpEncodeU64
  rw [rlpDecodeValue_enc (natToBeBytes n) hwf hlen]
  simp only []
  rw [if_neg (by omega)]
  by_cases h0 : n = 0
  · subst h0
    rw [if_neg ?hc0]
    case hc0 =>
      rintro ⟨ha, _⟩
      exact ha (by rw [natToBeBytes_eq]; simp)
    rw [beBytesToNat_natToBeBytes]
  · obtain ⟨b0, t0, ht, hb0⟩ := natToBeBytes_head_ne_zero n h0
    rw [if_neg ?hc1]
    case hc1 =>
      rintro ⟨_, hb⟩
      rw [ht] at hb
      simp at hb
      exact hb0 hb
    rw [beBytesToNat_natToBeBytes]

/-- Splitting the concatenation of encoded string items recovers the item slices. -/
theorem splitItems_enc (ss : List (List Nat)) (fuel : Nat)
    (hwf : ∀ s ∈ ss, bytesWf s ∧ s.length < 2 ^ 64)
    (hfuel : ((ss.map rlpEncodeBytes).join).length ≤ fuel) :
    splitItems fuel ((ss.map rlpEncodeBytes).join) = .ok (ss.map rlpEncodeBytes) := by
  induction ss generalizing fuel with
  | nil =>
    cases fuel <;> simp [splitItems]
  | cons s ss ih =>
    obtain ⟨hswf, hslen⟩ := hwf s (by simp)
    have hwf' : ∀ t ∈ ss, bytesWf t ∧ t.length < 2 ^ 64 := fun t ht => hwf t (by simp [ht])
    have hjoin : ((s :: ss).map rlpEncodeBytes).join =
        rlpEncodeBytes s ++ (ss.map rlpEncodeBytes).join := by simp
    obtain ⟨e0, et, henc⟩ : ∃ e0 et, rlpEncodeBytes s = e0 :: et := by
      cases hq : rlpEncodeBytes s with
      | nil => exact absurd hq (rlpEncodeBytes_ne_nil s)
      | cons a t => exact ⟨a, t, rfl⟩
    have hlen1 : 1 ≤ (rlpEncodeBytes s).length := by rw [henc]; simp
    rw [hjoin] at hfuel ⊢
    rw [List.length_append] at hfuel
    obtain ⟨f, hf⟩ : ∃ f, fuel = f + 1 := by
      rcases fuel with _ | f
      · omega
      · exact ⟨f, rfl⟩
    subst hf
    obtain ⟨hdr, hhdr, hinfo⟩ := payloadInfo_enc s ((ss.map rlpEncodeBytes).join) hswf hslen
    have hitem : hdr.length + s.length = (rlpEncodeBytes s).length := by
      rw [hhdr]; simp
    have hdata : rlpEncodeBytes s ++ (ss.map rlpEncodeBytes).join =
        e0 :: (et ++ (ss.map rlpEncodeBytes).join) := by
      rw [henc]; simp
    rw [hdata] at hinfo ⊢
    simp only [splitItems, hinfo]
    have hlendata : (e0 :: (et ++ (ss.map rlpEncodeBytes).join)).length =
        (rlpEncodeBytes s).length + ((ss.map rlpEncodeBytes).join).length := by
      rw [← hdata]; simp
    rw [if_neg (by omega)]
    have hdrop : (e0 :: (et ++ (ss.map rlpEncodeBytes).join)).drop (hdr.length + s.length) =
        (ss.map rlpEncodeBytes).join := by
      rw [← hdata, hitem, drop_append_self]
    have htake : (e0 :: (et ++ (ss.map rlpEncodeBytes).join)).take (hdr.length + s.length) =
        rlpEncodeBytes s := by
      rw [← hdata, hitem, take_append_self]
    rw [hdrop, htake]
    have hrec : splitItems f ((ss.map rlpEncodeBytes).join) = .ok (ss.map rlpEncodeBytes) := by
      refine ih f hwf' ?_
      omega
    rw [hrec]
    simp

/-- Interpreting the encoding of a string list as an RLP list recovers the
encoded item slices. -/
theorem rlpListItems_enc (ss : List (List Nat))
    (hwf : ∀ s ∈ ss, bytesWf s ∧ s.length < 2 ^ 64)
    (htot : ((ss.map rlpEncodeBytes).join).length < 2 ^ 64) :
    rlpListItems (rlpEncodeStringList ss) = .ok (ss.map rlpEncodeBytes) := by
  unfold rlpEncodeStringList rlpEncodeListPayload rlpListHeader
  set payload := (ss.map rlpEncodeBytes).join with hpayload
  by_cases hshort : payload.length ≤ 55
  · rw [if_pos hshort]
    have hdata : [0xc0 + payload.length] ++ payload = (0xc0 + payload.length) :: payload := by
      simp
    rw [hdata]
    have hinfo : payloadInfo ((0xc0 + payload.length) :: payload) = .ok ⟨1, payload.length⟩ := by
      simp only [payloadInfo]
      rw [if_neg (by omega), if_neg (by omega), if_neg (by omega), if_pos (by omega)]
      simp only [Except.ok.injEq, PayloadInfo.mk.injEq]
      refine ⟨by norm_num, by omega⟩
    simp only [rlpListItems, hinfo]
    have hhead : ((0xc0 + payload.length) :: payload).headI = 0xc0 + payload.length := rfl
    rw [hhead, if_neg (by omega)]
    have hlen : ((0xc0 + payload.length) :: payload).length = 1 + payload.length := by simp; omega
    rw [if_neg (by omega)]
    have hdrop : ((0xc0 + payload.length) :: payload).drop 1 = payload := rfl
    rw [hdrop, List.take_length]
    exact splitItems_enc ss payload.length hwf (le_refl _)
  · rw [if_neg hshort]
    have hnn : payload.length ≠ 0 := by omega
    have hne := natToBeBytes_ne_nil payload.length hnn
    obtain ⟨b0, t0, ht, hb0⟩ := natToBeBytes_head_ne_zero payload.length hnn
    have hlol : (natToBeBytes payload.length).length ≤ 8 := by
      apply natToBeBytes_length_le
      calc payload.length < 2 ^ 64 := htot
        _ = 256 ^ 8 := by norm_num
    have hlol1 : 1 ≤ (natToBeBytes payload.length).length := by rw [ht]; simp
    have hdata : ((0xf7 + (natToBeBytes payload.length).length) ::
        natToBeBytes payload.length) ++ payload =
        (0xf7 + (natToBeBytes payload.length).length) ::
          (natToBeBytes payload.length ++ payload) := by simp
    rw [hdata]
    have hinfo : payloadInfo ((0xf7 + (natToBeBytes payload.length).length) ::
        (natToBeBytes payload.length ++ payload)) =
        .ok ⟨1 + (natToBeBytes payload.length).length, payload.length⟩ := by
      simp only [payloadInfo]
      rw [if_neg (by omega), if_neg (by omega), if_neg (by omega), if_neg (by omega)]
      have hne2 : natToBeBytes payload.length ++ payload ≠ [] := by
        rw [ht]; simp
      have hhead2 : (natToBeBytes payload.length ++ payload).headI ≠ 0 := by
        rw [ht]; simpa using hb0
      have hlen2 : (natToBeBytes payload.length ++ payload).length =
          (natToBeBytes payload.length).length + payload.length := by simp
      rw [if_neg hne2, if_neg hhead2, if_neg (by omega), if_neg (by omega)]
      have htk : (natToBeBytes payload.length ++ payload).take
          (0xf7 + (natToBeBytes payload.length).length - 0xf7) =
          natToBeBytes payload.length := by
        have hh : 0xf7 + (natToBeBytes payload.length).length - 0xf7 =
            (natToBeBytes payload.length).length := by omega
        rw [hh, take_append_self]
      rw [htk, beBytesToNat_natToBeBytes, if_neg (by omega)]
      simp only [Except.ok.injEq, PayloadInfo.mk.injEq]
      exact ⟨by omega, trivial⟩
    simp only [rlpListItems, hinfo]
    have hhead : ((0xf7 + (natToBeBytes payload.length).length) ::
        (natToBeBytes payload.length ++ payload)).headI =
        0xf7 + (natToBeBytes payload.length).length := rfl
    rw [hhead, if_neg (by omega)]
    have hlen3 : ((0xf7 + (natToBeBytes payload.length).length) ::
        (natToBeBytes payload.length ++ payload)).length =
        1 + (natToBeBytes payload.length).length + payload.length := by simp; omega
    rw [if_neg (by omega)]
    have h1l : 1 + (natToBeBytes payload.length).length =
        (natToBeBytes payload.length).length + 1 := by omega
    have hdrop : ((0xf7 + (natToBeBytes payload.length).length) ::
        (natToBeBytes payload.length ++ payload)).drop
        (1 + (natToBeBytes payload.length).length) = payload := by
      rw [h1l, List.drop_succ_cons, drop_append_self]
    rw [hdrop, List.take_length]
    exact splitItems_enc ss payload.length hwf (le_refl _)

theorem rlpDecodeU64_encBytes (n : Nat) (h : n < 2 ^ 64) :
    rlpDecodeU64 (rlpEncodeBytes (natToBeBytes n)) = .ok n := rlpDecodeU64_enc n h

theorem exceptBind_ok {ε α β : Type} (a : α) (f : α → Except ε β) :
    Except.bind (Except.ok a) f = f a := rfl

theorem from_big_endian_to_big_endian (u : U256) (h : u.valid) :
    U256.from_big_endian u.to_big_endian = u := by
  obtain ⟨hl, _⟩ := h
  have ht : u.bytes.take 32 = u.bytes := by
    rw [← hl, List.take_length]
  unfold U256.from_big_endian U256.to_big_endian
  rw [ht, hl]
  simp

theorem fieldBytes_wf (tx : Tx7eTransaction) (h : ValidEnvelope tx) :
    ∀ s ∈ tx.fieldBytes, bytesWf s ∧ s.length < 2 ^ 64 := by
  obtain ⟨h1, h2, h3, h4, h5, ht, hr, hv, hbf, hgp, hfee, hsl, hsw, hdw, hdl⟩ := h
  have hu64 : ∀ n : Nat, n < 2 ^ 64 →
      bytesWf (natToBeBytes n) ∧ (natToBeBytes n).length < 2 ^ 64 := by
    intro n hn
    refine ⟨natToBeBytes_wf n, ?_⟩
    have : (natToBeBytes n).length ≤ 8 := by
      apply natToBeBytes_length_le
      calc n < 2 ^ 64 := hn
        _ = 256 ^ 8 := by norm_num
    omega
  intro s hs
  simp only [Tx7eTransaction.fieldBytes, List.mem_cons, List.not_mem_nil, or_false] at hs
  rcases hs with rfl | rfl | rfl | rfl | rfl | rfl | rfl | rfl | rfl | rfl | rfl | rfl | rfl
  · exact hu64 _ h1
  · exact ⟨ht.2, by rw [Address.as_bytes, ht.1]; norm_num⟩
  · exact ⟨hv.2, by rw [U256.to_big_endian, hv.1]; norm_num⟩
  · exact ⟨hdw, by omega⟩
  · exact hu64 _ h2
  · exact hu64 _ h3
  · exact hu64 _ h4
  · exact ⟨hbf.2, by rw [U256.to_big_endian, hbf.1]; norm_num⟩
  · exact ⟨hgp.2, by rw [U256.to_big_endian, hgp.1]; norm_num⟩
  · exact hu64 _ h5
  · exact ⟨hfee.2, by rw [U256.to_big_endian, hfee.1]; norm_num⟩
  · exact ⟨hr.2, by rw [Address.as_bytes, hr.1]; norm_num⟩
  · exact ⟨hsw, by omega⟩

theorem fieldBytes_payload_lt (tx : Tx7eTransaction) (h : ValidEnvelope tx) :
    ((tx.fieldBytes.map rlpEncodeBytes).join).length < 2 ^ 64 := by
  have hw := fieldBytes_wf tx h
  obtain ⟨h1, h2, h3, h4, h5, ht, hr, hv, hbf, hgp, hfee, hsl, hsw, hdw, hdl⟩ := h
  have hlen : ∀ s ∈ tx.fieldBytes, (rlpEncodeBytes s).length ≤ s.length + 9 := by
    intro s hs
    exact rlpEncodeBytes_length_le s (hw s hs).2
  have hjoin : ((tx.fieldBytes.map rlpEncodeBytes).join).length =
      (rlpEncodeBytes (natToBeBytes tx.chain_id)).length +
      (rlpEncodeBytes tx.target.as_bytes).length +
      (rlpEncodeBytes tx.value.to_big_endian).length +
      (rlpEncodeBytes tx.data).length +
      (rlpEncodeBytes (natToBeBytes tx.gas_limit)).length +
      (rlpEncodeBytes (natToBeBytes tx.l1_block_number)).length +
      (rlpEncodeBytes (natToBeBytes tx.l1_timestamp)).length +
      (rlpEncodeBytes tx.l1_base_fee.to_big_endian).length +
      (rlpEncodeBytes tx.l1_gas_price.to_big_endian).length +
      (rlpEncodeBytes (natToBeBytes tx.l1_gas_used)).length +
      (rlpEncodeBytes tx.l1_fee.to_big_endian).length +
      (rlpEncodeBytes tx.refund_address.as_bytes).length +
      (rlpEncodeBytes tx.source_hash).length := by
    simp [Tx7eTransaction.fieldBytes]
    omega
  have hu8 : ∀ n : Nat, n < 2 ^ 64 → (natToBeBytes n).length ≤ 8 := by
    intro n hn
    apply natToBeBytes_length_le
    calc n < 2 ^ 64 := hn
      _ = 256 ^ 8 := by norm_num
  have g0 : (natToBeBytes tx.chain_id).length ≤ 8 := hu8 _ h1
  have g1 : tx.target.as_bytes.length = 20 := ht.1
  have g2 : tx.value.to_big_endian.length = 32 := hv.1
  have g3 : tx.data.length < 2 ^ 63 := hdl
  have g4 : (natToBeBytes tx.gas_limit).length ≤ 8 := hu8 _ h2
  have g5 : (natToBeBytes tx.l1_block_number).length ≤ 8 := hu8 _ h3
  have g6 : (natToBeBytes tx.l1_timestamp).length ≤ 8 := hu8 _ h4
  have g7 : tx.l1_base_fee.to_big_endian.length = 32 := hbf.1
  have g8 : tx.l1_gas_price.to_big_endian.length = 32 := hgp.1
  have g9 : (natToBeBytes tx.l1_gas_used).length ≤ 8 := hu8 _ h5
  have g10 : tx.l1_fee.to_big_endian.length = 32 := hfee.1
  have g11 : tx.refund_address.as_bytes.length = 20 := hr.1
  have g12 : tx.source_hash.length = 32 := hsl
  rw [hjoin]
  have e0 := hlen _ (show natToBeBytes tx.chain_id ∈ tx.fieldBytes by simp [Tx7eTransaction.fieldBytes])
  have e1 := hlen _ (show tx.target.as_bytes ∈ tx.fieldBytes by simp [Tx7eTransaction.fieldBytes])
  have e2 := hlen _ (show tx.value.to_big_endian ∈ tx.fieldBytes by simp [Tx7eTransaction.fieldBytes])
  have e3 := hlen _ (show tx.data ∈ tx.fieldBytes by simp [Tx7eTransaction.fieldBytes])
  have e4 := hlen _ (show natToBeBytes tx.gas_limit ∈ tx.fieldBytes by simp [Tx7eTransaction.fieldBytes])
  have e5 := hlen _ (show natToBeBytes tx.l1_block_number ∈ tx.fieldBytes by simp [Tx7eTransaction.fieldBytes])
  have e6 := hlen _ (show natToBeBytes tx.l1_timestamp ∈ tx.fieldBytes by simp [Tx7eTransaction.fieldBytes])
  have e7 := hlen _ (show tx.l1_base_fee.to_big_endian ∈ tx.fieldBytes by simp [Tx7eTransaction.fieldBytes])
  have e8 := hlen _ (show tx.l1_gas_price.to_big_endian ∈ tx.fieldBytes by simp [Tx7eTransaction.fieldBytes])
  have e9 := hlen _ (show natToBeBytes tx.l1_gas_used ∈ tx.fieldBytes by simp [Tx7eTransaction.fieldBytes])
  have e10 := hlen _ (show tx.l1_fee.to_big_endian ∈ tx.fieldBytes by simp [Tx7eTransaction.fieldBytes])
  have e11 := hlen _ (show tx.refund_address.as_bytes ∈ tx.fieldBytes by simp [Tx7eTransaction.fieldBytes])
  have e12 := hlen _ (show tx.source_hash ∈ tx.fieldBytes by simp [Tx7eTransaction.fieldBytes])
  omega

/-- Round trip of the tx7e codec: decoding the canonical list encoding of a
well-formed envelope returns the envelope unchanged. -/
theorem decode_rlp_encode (tx : Tx7eTransaction) (h : ValidEnvelope tx) :
    Tx7eTransaction.decode tx.rlp_encode = .ok tx := by
  have hitems := rlpListItems_enc tx.fieldBytes (fieldBytes_wf tx h) (fieldBytes_payload_lt tx h)
  obtain ⟨h1, h2, h3, h4, h5, ht, hr, hv, hbf, hgp, hfee, hsl, hsw, hdw, hdl⟩ := h
  unfold Tx7eTransaction.decode Tx7eTransaction.rlp_encode
  rw [hitems]
  simp only [Tx7eTransaction.fieldBytes, List.map, List.length_cons, List.length_nil]
  rw [if_pos (by norm_num)]
  simp only [rlpDecodeU64_encBytes tx.chain_id h1,
    rlpDecodeU64_encBytes tx.gas_limit h2,
    rlpDecodeU64_encBytes tx.l1_block_number h3,
    rlpDecodeU64_encBytes tx.l1_timestamp h4,
    rlpDecodeU64_encBytes tx.l1_gas_used h5,
    rlpDecodeValue_enc tx.target.as_bytes ht.2 (by rw [Address.as_bytes, ht.1]; norm_num),
    rlpDecodeValue_enc tx.refund_address.as_bytes hr.2 (by rw [Address.as_bytes, hr.1]; norm_num),
    rlpDecodeValue_enc tx.value.to_big_endian hv.2 (by rw [U256.to_big_endian, hv.1]; norm_num),
    rlpDecodeValue_enc tx.l1_base_fee.to_big_endian hbf.2
      (by rw [U256.to_big_endian, hbf.1]; norm_num),
    rlpDecodeValue_enc tx.l1_gas_price.to_big_endian hgp.2
      (by rw [U256.to_big_endian, hgp.1]; norm_num),
    rlpDecodeValue_enc tx.l1_fee.to_big_endian hfee.2
      (by rw [U256.to_big_endian, hfee.1]; norm_num),
    rlpDecodeValue_enc tx.data hdw (by omega),
    rlpDecodeValue_enc tx.source_hash hsw (by rw [hsl]; norm_num),
    exceptBind_ok]
  rw [if_neg (by rw [Address.as_bytes, ht.1]; norm_num)]
  rw [if_neg (by rw [Address.as_bytes, hr.1]; norm_num)]
  rw [if_neg (by rw [hsl]; norm_num)]
  rw [from_big_endian_to_big_endian tx.value hv,
    from_big_endian_to_big_endian tx.l1_base_fee hbf,
    from_big_endian_to_big_endian tx.l1_gas_price hgp,
    from_big_endian_to_big_endian tx.l1_fee hfee]
  rfl

/-! ### Saturating arithmetic lemmas -/

theorem addLE_spec (a : List Nat) : ∀ (b : List Nat) (c : Nat), a.length = b.length →
    bytesWf a → bytesWf b → c ≤ 1 →
    leVal (addLE a b c).1 + (addLE a b c).2 * 256 ^ a.length = leVal a + leVal b + c ∧
    (addLE a b c).1.length = a.length ∧ bytesWf (addLE a b c).1 ∧ (addLE a b c).2 ≤ 1 := by
  induction a with
  | nil =>
    intro b c hl _ _ hc
    have hb : b = [] := by
      cases b with
      | nil => rfl
      | cons y ys => simp at hl
    subst hb
    simp [addLE, leVal, bytesWf]
    exact hc
  | cons x xs ih =>
    intro b c hl hwa hwb hc
    obtain ⟨y, ys, rfl⟩ : ∃ y ys, b = y :: ys := by
      cases b with
      | nil => simp at hl
      | cons y ys => exact ⟨y, ys, rfl⟩
    have hx : x < 256 := hwa x (by simp)
    have hy : y < 256 := hwb y (by simp)
    have hdiv : (x + y + c) / 256 ≤ 1 := by omega
    obtain ⟨hv, hlen, hwf, hc2⟩ := ih ys ((x + y + c) / 256) (by simpa using hl)
      (fun z hz => hwa z (by simp [hz])) (fun z hz => hwb z (by simp [hz])) hdiv
    simp only [addLE]
    refine ⟨?_, by simpa using hlen, ?_, hc2⟩
    · simp only [leVal, List.length_cons, pow_succ]
      have hmod := Nat.div_add_mod (x + y + c) 256
      rcases Nat.le_one_iff_eq_zero_or_eq_one.mp hc2 with h2 | h2 <;>
        rw [h2] at hv ⊢ <;> omega
    · intro z hz
      rcases List.mem_cons.mp hz with rfl | hm
      · omega
      · exact hwf z hm

theorem max_value_toNat : U256.max_value.toNat = 2 ^ 256 - 1 := by decide

theorem max_value_valid : U256.max_value.valid := by decide

/-- `saturating_add` computes the saturated sum on well-formed values. -/
theorem saturating_add_toNat (x y : U256) (hx : x.valid) (hy : y.valid) :
    (x.saturating_add y).toNat =
      if x.toNat + y.toNat < 2 ^ 256 then (x.toNat + y.toNat) % 2 ^ 256 else 2 ^ 256 - 1 := by
  have hlx : x.bytes.reverse.length = 32 := by simp [hx.1]
  have hly : y.bytes.reverse.length = 32 := by simp [hy.1]
  have hwx : bytesWf x.bytes.reverse := fun b hb => hx.2 b (List.mem_reverse.mp hb)
  have hwy : bytesWf y.bytes.reverse := fun b hb => hy.2 b (List.mem_reverse.mp hb)
  obtain ⟨hv, hlen, hwf, hc⟩ :=
    addLE_spec x.bytes.reverse y.bytes.reverse 0 (by rw [hlx, hly]) hwx hwy (by norm_num)
  rw [hlx] at hv hlen
  have hxv : leVal x.bytes.reverse = x.toNat := (beBytesToNat_eq_leVal_reverse x.bytes).symm
  have hyv : leVal y.bytes.reverse = y.toNat := (beBytesToNat_eq_leVal_reverse y.bytes).symm
  rw [hxv, hyv] at hv
  have hrbound : leVal (addLE x.bytes.reverse y.bytes.reverse 0).1 < 256 ^ 32 := by
    have := leVal_lt (addLE x.bytes.reverse y.bytes.reverse 0).1 hwf
    rw [hlen] at this
    exact this
  have hpow : (256 : Nat) ^ 32 = 2 ^ 256 := by norm_num
  have hres : (U256.mk (addLE x.bytes.reverse y.bytes.reverse 0).1.reverse).toNat =
      leVal (addLE x.bytes.reverse y.bytes.reverse 0).1 := by
    rw [U256.toNat, beBytesToNat_eq_leVal_reverse, List.reverse_reverse]
  unfold U256.saturating_add U256.overflowing_add
  rcases Nat.le_one_iff_eq_zero_or_eq_one.mp hc with h2 | h2
  · rw [h2] at hv
    simp only [h2, show (decide ((0 : Nat) < 0)) = false from rfl, Bool.false_eq_true,
      if_false]
    rw [hres]
    have hlt : x.toNat + y.toNat < 2 ^ 256 := by
      rw [hpow] at hrbound
      omega
    rw [if_pos hlt, Nat.mod_eq_of_lt hlt]
    omega
  · rw [h2] at hv
    simp only [h2, show (decide ((0 : Nat) < 1)) = true from rfl, if_true]
    rw [max_value_toNat]
    have hge : ¬(x.toNat + y.toNat < 2 ^ 256) := by
      rw [hpow] at hv
      omega
    rw [if_neg hge]

theorem U64MOD_eq : U64MOD = 2 ^ 64 := rfl

theorem mulRowAux_spec (b : List Nat) : ∀ (seg : List Nat) (a c : Nat),
    seg.length = b.length + 1 → limbsWf seg → limbsWf b → a < 2 ^ 64 → c < 2 ^ 64 →
    limbsVal seg + a * limbsVal b + c < (2 ^ 64) ^ seg.length →
    (mulRowAux a b seg c).length = seg.length ∧ limbsWf (mulRowAux a b seg c) ∧
    limbsVal (mulRowAux a b seg c) = limbsVal seg + a * limbsVal b + c := by
  induction b with
  | nil =>
    intro seg a c hl hws hwb ha hc hbound
    obtain ⟨r, hr⟩ : ∃ r, seg = [r] := by
      cases seg with
      | nil => simp at hl
      | cons r rs =>
        cases rs with
        | nil => exact ⟨r, rfl⟩
        | cons z zs => simp at hl
    subst hr
    have hrc : r + c < 2 ^ 64 := by
      simp [limbsVal] at hbound
      omega
    simp only [mulRowAux, U64MOD_eq]
    rw [Nat.mod_eq_of_lt hrc]
    refine ⟨by simp, ?_, by simp [limbsVal]⟩
    intro z hz
    simp at hz
    omega
  | cons b' bs ih =>
    intro seg a c hl hws hwb ha hc hbound
    obtain ⟨r, rs, hr⟩ : ∃ r rs, seg = r :: rs := by
      cases seg with
      | nil => simp at hl
      | cons r rs => exact ⟨r, rs, rfl⟩
    subst hr
    have hr64 : r < 2 ^ 64 := hws r (by simp)
    have hb64 : b' < 2 ^ 64 := hwb b' (by simp)
    have hprod : a * b' ≤ (2 ^ 64 - 1) * (2 ^ 64 - 1) :=
      Nat.mul_le_mul (by omega) (by omega)
    have hdivlt : (r + a * b' + c) / 2 ^ 64 < 2 ^ 64 := by omega
    have hdm := Nat.div_add_mod (r + a * b' + c) (2 ^ 64)
    have hlrs : rs.length = bs.length + 1 := by simpa using hl
    have hdist : a * limbsVal (b' :: bs) = a * b' + 2 ^ 64 * (a * limbsVal bs) := by
      simp [limbsVal]
      ring
    have hpowsucc : ((2 : Nat) ^ 64) ^ (r :: rs).length =
        2 ^ 64 * ((2 : Nat) ^ 64) ^ rs.length := by
      simp only [List.length_cons, pow_succ]
      ring
    have hbound2 : r + 2 ^ 64 * limbsVal rs + (a * b' + 2 ^ 64 * (a * limbsVal bs)) + c <
        2 ^ 64 * ((2 : Nat) ^ 64) ^ rs.length := by
      rw [← hdist, ← hpowsucc]
      simpa [limbsVal] using hbound
    have hrecb : limbsVal rs + a * limbsVal bs + (r + a * b' + c) / 2 ^ 64 <
        ((2 : Nat) ^ 64) ^ rs.length := by
      omega
    obtain ⟨ihl, ihw, ihv⟩ := ih rs a ((r + a * b' + c) / 2 ^ 64) hlrs
      (fun z hz => hws z (by simp [hz])) (fun z hz => hwb z (by simp [hz])) ha
      (by rw [← U64MOD_eq]; rw [U64MOD_eq]; exact hdivlt) hrecb
    simp only [mulRowAux, U64MOD_eq]
    refine ⟨by simpa using ihl, ?_, ?_⟩
    · intro z hz
      rcases List.mem_cons.mp hz with rfl | hm
      · exact Nat.mod_lt _ (by norm_num)
      · exact ihw z hm
    · have hgoal : limbsVal ((r + a * b' + c) % 2 ^ 64 ::
          mulRowAux a bs rs ((r + a * b' + c) / 2 ^ 64)) =
          (r + a * b' + c) % 2 ^ 64 + 2 ^ 64 *
            limbsVal (mulRowAux a bs rs ((r + a * b' + c) / 2 ^ 64)) := rfl
      rw [hgoal, ihv]
      have hseg : limbsVal (r :: rs) = r + 2 ^ 64 * limbsVal rs := rfl
      rw [hseg, hdist]
      omega

theorem mulRowAux_append (b : List Nat) : ∀ (s t : List Nat) (a c : Nat),
    s.length = b.length + 1 →
    mulRowAux a b (s ++ t) c = mulRowAux a b s c ++ t := by
  induction b with
  | nil =>
    intro s t a c hl
    obtain ⟨r, hr⟩ : ∃ r, s = [r] := by
      cases s with
      | nil => simp at hl
      | cons r rs =>
        cases rs with
        | nil => exact ⟨r, rfl⟩
        | cons z zs => simp at hl
    subst hr
    simp [mulRowAux]
  | cons b' bs ih =>
    intro s t a c hl
    obtain ⟨r, rs, hr⟩ : ∃ r rs, s = r :: rs := by
      cases s with
      | nil => simp at hl
      | cons r rs => exact ⟨r, rs, rfl⟩
    subst hr
    simp only [List.cons_append, mulRowAux]
    congr 1
    exact ih rs t a ((r + a * b' + c) / U64MOD) (by simpa using hl)

theorem applyRow_spec (a : Nat) (bL : List Nat) (i : Nat) (res : List Nat)
    (hlen : i + 5 ≤ res.length) (hw : limbsWf res) (hwb : limbsWf bL) (hb4 : bL.length = 4)
    (ha : a < 2 ^ 64) (hz : ∀ x ∈ res.drop (i + 5), x = 0)
    (hbound : limbsVal res + a * limbsVal bL * ((2 : Nat) ^ 64) ^ i < ((2 : Nat) ^ 64) ^ (i + 5)) :
    (applyRow a bL i res).length = res.length ∧ limbsWf (applyRow a bL i res) ∧
    limbsVal (applyRow a bL i res) = limbsVal res + a * limbsVal bL * ((2 : Nat) ^ 64) ^ i ∧
    ∀ x ∈ (applyRow a bL i res).drop (i + 5), x = 0 := by
  have hsplit1 : res.take i ++ res.drop i = res := List.take_append_drop i res
  have hsplit2 : (res.drop i).take 5 ++ (res.drop i).drop 5 = res.drop i :=
    List.take_append_drop 5 (res.drop i)
  have htail : (res.drop i).drop 5 = res.drop (i + 5) := by
    rw [List.drop_drop]
  have hpre_len : (res.take i).length = i := by
    rw [List.length_take]
    omega
  have hseg_len : ((res.drop i).take 5).length = 5 := by
    rw [List.length_take, List.length_drop]
    omega
  have hseg_wf : limbsWf ((res.drop i).take 5) :=
    fun z hz2 => hw z (List.drop_subset i res (List.take_subset 5 (res.drop i) hz2))
  have hpre_wf : limbsWf (res.take i) := fun z hz2 => hw z (List.take_subset i res hz2)
  have htail_wf : limbsWf (res.drop (i + 5)) :=
    fun z hz2 => hw z (List.drop_subset (i + 5) res hz2)
  have htail_val : limbsVal (res.drop (i + 5)) = 0 :=
    (limbsVal_eq_zero_iff _).mpr hz
  have hresval : limbsVal res =
      limbsVal (res.take i) + ((2 : Nat) ^ 64) ^ i * limbsVal ((res.drop i).take 5) := by
    conv_lhs => rw [← hsplit1]
    rw [limbsVal_append, hpre_len]
    congr 1
    conv_lhs => rw [← hsplit2]
    rw [limbsVal_append, htail, htail_val]
    simp
  have happ : applyRow a bL i res =
      res.take i ++ (mulRowAux a bL ((res.drop i).take 5) 0 ++ res.drop (i + 5)) := by
    unfold applyRow
    congr 1
    conv_lhs => rw [← hsplit2, htail]
    exact mulRowAux_append bL ((res.drop i).take 5) (res.drop (i + 5)) a 0
      (by rw [hseg_len, hb4])
  have hpre_lt : limbsVal (res.take i) < ((2 : Nat) ^ 64) ^ i := by
    have := limbsVal_lt (res.take i) hpre_wf
    rwa [hpre_len] at this
  have hrow_bound : limbsVal ((res.drop i).take 5) + a * limbsVal bL + 0 <
      ((2 : Nat) ^ 64) ^ 5 := by
    have hpa : ((2 : Nat) ^ 64) ^ (i + 5) = ((2 : Nat) ^ 64) ^ i * ((2 : Nat) ^ 64) ^ 5 :=
      pow_add _ i 5
    rw [hresval, hpa] at hbound
    have hP : 0 < ((2 : Nat) ^ 64) ^ i := Nat.pos_pow_of_pos i (by norm_num)
    by_contra hcon
    push_neg at hcon
    have : ((2 : Nat) ^ 64) ^ i * ((2 : Nat) ^ 64) ^ 5 ≤
        ((2 : Nat) ^ 64) ^ i * (limbsVal ((res.drop i).take 5) + a * limbsVal bL) :=
      Nat.mul_le_mul_left _ (by omega)
    nlinarith [Nat.mul_le_mul_left (((2 : Nat) ^ 64) ^ i)
      (Nat.le_of_lt_succ (Nat.lt_succ_of_lt hbound))]
  obtain ⟨hrl, hrw, hrv⟩ := mulRowAux_spec bL ((res.drop i).take 5) a 0
    (by rw [hseg_len, hb4]) hseg_wf hwb ha (by norm_num) (by rw [hseg_len]; exact hrow_bound)
  refine ⟨?_, ?_, ?_, ?_⟩
  · rw [happ]
    simp only [List.length_append, hpre_len, hrl, List.length_drop]
    omega
  · rw [happ]
    intro z hz2
    rcases List.mem_append.mp hz2 with hm | hm
    · exact hpre_wf z hm
    · rcases List.mem_append.mp hm with hm2 | hm2
      · exact hrw z hm2
      · exact htail_wf z hm2
  · rw [happ, limbsVal_append, limbsVal_append, hpre_len, hrl, htail_val, hrv, hresval]
    ring
  · intro z hz2
    rw [happ] at hz2
    have hlen2 : (res.take i ++ mulRowAux a bL ((res.drop i).take 5) 0).length = i + 5 := by
      simp only [List.length_append, hpre_len, hrl, hseg_len]
    rw [← List.append_assoc] at hz2
    rw [← hlen2] at hz2
    rw [drop_append_self] at hz2
    rw [hlen2] at hz2
    exact hz z hz2

theorem mulLimbs_spec (aL bL : List Nat) (haw : limbsWf aL) (hbw : limbsWf bL)
    (ha4 : aL.length = 4) (hb4 : bL.length = 4) :
    (mulLimbs aL bL).length = 8 ∧ limbsWf (mulLimbs aL bL) ∧
    limbsVal (mulLimbs aL bL) = limbsVal aL * limbsVal bL := by
  obtain ⟨a0, a1, a2, a3, ha⟩ : ∃ a0 a1 a2 a3, aL = [a0, a1, a2, a3] := by
    cases aL with
    | nil => simp at ha4
    | cons a0 t0 =>
      cases t0 with
      | nil => simp at ha4
      | cons a1 t1 =>
        cases t1 with
        | nil => simp at ha4
        | cons a2 t2 =>
          cases t2 with
          | nil => simp at ha4
          | cons a3 t3 =>
            cases t3 with
            | nil => exact ⟨a0, a1, a2, a3, rfl⟩
            | cons z zs => simp at ha4
  subst ha
  have ha0 : a0 < 2 ^ 64 := haw a0 (by simp)
  have ha1 : a1 < 2 ^ 64 := haw a1 (by simp)
  have ha2 : a2 < 2 ^ 64 := haw a2 (by simp)
  have ha3 : a3 < 2 ^ 64 := haw a3 (by simp)
  have hVb : limbsVal bL < 2 ^ 256 := by
    have := limbsVal_lt bL hbw
    rw [hb4] at this
    calc limbsVal bL < ((2 : Nat) ^ 64) ^ 4 := this
      _ = 2 ^ 256 := by norm_num
  have hmul : mulLimbs [a0, a1, a2, a3] bL =
      applyRow a3 bL 3 (applyRow a2 bL 2 (applyRow a1 bL 1
        (applyRow a0 bL 0 (List.replicate 8 0)))) := by
    simp [mulLimbs, List.range_succ]
  have h0len : (List.replicate 8 0 : List Nat).length = 8 := by simp
  have h0wf : limbsWf (List.replicate 8 0 : List Nat) := by
    intro z hz
    rw [List.eq_of_mem_replicate hz]
    norm_num
  have h0z : ∀ j, ∀ x ∈ (List.replicate 8 0 : List Nat).drop j, x = 0 := by
    intro j x hx
    exact List.eq_of_mem_replicate (List.drop_subset j _ hx)
  have h0val : limbsVal (List.replicate 8 0) = 0 := by
    apply (limbsVal_eq_zero_iff _).mpr
    intro x hx
    exact List.eq_of_mem_replicate hx
  obtain ⟨r0len, r0wf, r0val, r0z⟩ := applyRow_spec a0 bL 0 (List.replicate 8 0)
    (by rw [h0len]; omega) h0wf hbw hb4 ha0 (h0z 5)
    (by
      rw [h0val]
      calc 0 + a0 * limbsVal bL * ((2 : Nat) ^ 64) ^ 0 = a0 * limbsVal bL := by ring
        _ ≤ (2 ^ 64 - 1) * (2 ^ 256 - 1) := Nat.mul_le_mul (by omega) (by omega)
        _ < ((2 : Nat) ^ 64) ^ (0 + 5) := by norm_num)
  rw [h0len] at r0len
  rw [h0val] at r0val
  obtain ⟨r1len, r1wf, r1val, r1z⟩ := applyRow_spec a1 bL 1
    (applyRow a0 bL 0 (List.replicate 8 0))
    (by rw [r0len]; omega) r0wf hbw hb4 ha1
    (by
      intro x hx
      apply r0z
      have h15 : (1 + 5 : Nat) = 0 + 5 + 1 := by norm_num
      rw [h15, ← List.drop_drop] at hx
      exact List.drop_subset 1 _ hx)
    (by
      rw [r0val]
      have hsum : (0 + a0 * limbsVal bL * ((2 : Nat) ^ 64) ^ 0) +
          a1 * limbsVal bL * ((2 : Nat) ^ 64) ^ 1 =
          (a0 + a1 * 2 ^ 64) * limbsVal bL := by ring
      rw [hsum]
      calc (a0 + a1 * 2 ^ 64) * limbsVal bL
          ≤ (2 ^ 128 - 1) * (2 ^ 256 - 1) := Nat.mul_le_mul (by omega) (by omega)
        _ < ((2 : Nat) ^ 64) ^ (1 + 5) := by norm_num)
  obtain ⟨r2len, r2wf, r2val, r2z⟩ := applyRow_spec a2 bL 2
    (applyRow a1 bL 1 (applyRow a0 bL 0 (List.replicate 8 0)))
    (by rw [r1len, r0len]; omega) r1wf hbw hb4 ha2
    (by
      intro x hx
      apply r1z
      have h25 : (2 + 5 : Nat) = 1 + 5 + 1 := by norm_num
      rw [h25, ← List.drop_drop] at hx
      exact List.drop_subset 1 _ hx)
    (by
      rw [r1val, r0val]
      have hsum : ((0 + a0 * limbsVal bL * ((2 : Nat) ^ 64) ^ 0) +
          a1 * limbsVal bL * ((2 : Nat) ^ 64) ^ 1) +
          a2 * limbsVal bL * ((2 : Nat) ^ 64) ^ 2 =
          (a0 + a1 * 2 ^ 64 + a2 * 2 ^ 128) * limbsVal bL := by ring
      rw [hsum]
      calc (a0 + a1 * 2 ^ 64 + a2 * 2 ^ 128) * limbsVal bL
          ≤ (2 ^ 192 - 1) * (2 ^ 256 - 1) := Nat.mul_le_mul (by omega) (by omega)
        _ < ((2 : Nat) ^ 64) ^ (2 + 5) := by norm_num)
  obtain ⟨r3len, r3wf, r3val, r3z⟩ := applyRow_spec a3 bL 3
    (applyRow a2 bL 2 (applyRow a1 bL 1 (applyRow a0 bL 0 (List.replicate 8 0))))
    (by rw [r2len, r1len, r0len]) r2wf hbw hb4 ha3
    (by
      intro x hx
      apply r2z
      have h35 : (3 + 5 : Nat) = 2 + 5 + 1 := by norm_num
      rw [h35, ← List.drop_drop] at hx
      exact List.drop_subset 1 _ hx)
    (by
      rw [r2val, r1val, r0val]
      have hsum : (((0 + a0 * limbsVal bL * ((2 : Nat) ^ 64) ^ 0) +
          a1 * limbsVal bL * ((2 : Nat) ^ 64) ^ 1) +
          a2 * limbsVal bL * ((2 : Nat) ^ 64) ^ 2) +
          a3 * limbsVal bL * ((2 : Nat) ^ 64) ^ 3 =
          (a0 + a1 * 2 ^ 64 + a2 * 2 ^ 128 + a3 * 2 ^ 192) * limbsVal bL := by ring
      rw [hsum]
      calc (a0 + a1 * 2 ^ 64 + a2 * 2 ^ 128 + a3 * 2 ^ 192) * limbsVal bL
          ≤ (2 ^ 256 - 1) * (2 ^ 256 - 1) := Nat.mul_le_mul (by omega) (by omega)
        _ < ((2 : Nat) ^ 64) ^ (3 + 5) := by norm_num)
  rw [hmul]
  refine ⟨by rw [r3len, r2len, r1len, r0len], r3wf, ?_⟩
  rw [r3val, r2val, r1val, r0val]
  have hval : limbsVal [a0, a1, a2, a3] =
      a0 + a1 * 2 ^ 64 + a2 * 2 ^ 128 + a3 * 2 ^ 192 := by
    simp [limbsVal]
    ring
  rw [hval]
  ring

theorem to_u64_limbs_spec (x : U256) (h : x.valid) :
    limbsWf x.to_u64_limbs ∧ limbsVal x.to_u64_limbs = x.toNat ∧
    x.to_u64_limbs.length = 4 := by
  obtain ⟨hl, hw⟩ := h
  have hd0 : x.bytes.drop 0 = x.bytes := List.drop_zero x.bytes
  have hs1 : x.bytes.take 8 ++ x.bytes.drop 8 = x.bytes := List.take_append_drop 8 x.bytes
  have hs2 : (x.bytes.drop 8).take 8 ++ x.bytes.drop 16 = x.bytes.drop 8 := by
    have : (x.bytes.drop 8).drop 8 = x.bytes.drop 16 := by rw [List.drop_drop]
    rw [← this]
    exact List.take_append_drop 8 (x.bytes.drop 8)
  have hs3 : (x.bytes.drop 16).take 8 ++ x.bytes.drop 24 = x.bytes.drop 16 := by
    have : (x.bytes.drop 16).drop 8 = x.bytes.drop 24 := by rw [List.drop_drop]
    rw [← this]
    exact List.take_append_drop 8 (x.bytes.drop 16)
  have hlen3 : (x.bytes.take 8).length = 8 := by rw [List.length_take]; omega
  have hlen2 : ((x.bytes.drop 8).take 8).length = 8 := by
    rw [List.length_take, List.length_drop]; omega
  have hlen1 : ((x.bytes.drop 16).take 8).length = 8 := by
    rw [List.length_take, List.length_drop]; omega
  have hlen0 : (x.bytes.drop 24).length = 8 := by rw [List.length_drop]; omega
  have hlen0' : (x.bytes.drop 24).take 8 = x.bytes.drop 24 := by
    rw [← hlen0, List.take_length]
  have hwf3 : bytesWf (x.bytes.take 8) := fun b hb => hw b (List.take_subset _ _ hb)
  have hwf2 : bytesWf ((x.bytes.drop 8).take 8) :=
    fun b hb => hw b (List.drop_subset _ _ (List.take_subset _ _ hb))
  have hwf1 : bytesWf ((x.bytes.drop 16).take 8) :=
    fun b hb => hw b (List.drop_subset _ _ (List.take_subset _ _ hb))
  have hwf0 : bytesWf (x.bytes.drop 24) := fun b hb => hw b (List.drop_subset _ _ hb)
  have hb3 := beBytesToNat_lt _ hwf3
  have hb2 := beBytesToNat_lt _ hwf2
  have hb1 := beBytesToNat_lt _ hwf1
  have hb0 := beBytesToNat_lt _ hwf0
  rw [hlen3] at hb3
  rw [hlen2] at hb2
  rw [hlen1] at hb1
  rw [hlen0] at hb0
  have h2564 : (256 : Nat) ^ 8 = 2 ^ 64 := by norm_num
  rw [h2564] at hb3 hb2 hb1 hb0
  refine ⟨?_, ?_, by simp [U256.to_u64_limbs]⟩
  · intro z hz
    simp only [U256.to_u64_limbs, hd0, hlen0', List.mem_cons, List.not_mem_nil,
      or_false] at hz
    rcases hz with rfl | rfl | rfl | rfl
    · exact hb0
    · exact hb1
    · exact hb2
    · exact hb3
  · have hxval : x.toNat = beBytesToNat (x.bytes.take 8) * 256 ^ 24 +
        (beBytesToNat ((x.bytes.drop 8).take 8) * 256 ^ 16 +
         (beBytesToNat ((x.bytes.drop 16).take 8) * 256 ^ 8 +
          beBytesToNat (x.bytes.drop 24))) := by
      rw [U256.toNat]
      conv_lhs => rw [← hs1]
      rw [beBytesToNat_append]
      conv_lhs => rw [← hs2]
      rw [beBytesToNat_append]
      conv_lhs => rw [← hs3]
      rw [beBytesToNat_append]
      simp only [List.length_append, hlen2, hlen1, hlen0]
    simp only [U256.to_u64_limbs, hd0, hlen0', limbsVal]
    rw [hxval]
    norm_num
    ring

theorem from_u64_limbs_spec (ls : List Nat) (h4 : ls.length = 4) (hw : limbsWf ls) :
    (U256.from_u64_limbs ls).toNat = limbsVal ls ∧ (U256.from_u64_limbs ls).valid := by
  obtain ⟨l0, l1, l2, l3, hls⟩ : ∃ l0 l1 l2 l3, ls = [l0, l1, l2, l3] := by
    cases ls with
    | nil => simp at h4
    | cons l0 t0 =>
      cases t0 with
      | nil => simp at h4
      | cons l1 t1 =>
        cases t1 with
        | nil => simp at h4
        | cons l2 t2 =>
          cases t2 with
          | nil => simp at h4
          | cons l3 t3 =>
            cases t3 with
            | nil => exact ⟨l0, l1, l2, l3, rfl⟩
            | cons z zs => simp at h4
  subst hls
  have h0 : l0 < 2 ^ 64 := hw l0 (by simp)
  have h1 : l1 < 2 ^ 64 := hw l1 (by simp)
  have h2 : l2 < 2 ^ 64 := hw l2 (by simp)
  have h3 : l3 < 2 ^ 64 := hw l3 (by simp)
  have hmods : ∀ n : Nat, n < 2 ^ 64 → n % 256 ^ 8 = n := by
    intro n hn
    apply Nat.mod_eq_of_lt
    calc n < 2 ^ 64 := hn
      _ = 256 ^ 8 := by norm_num
  constructor
  · simp only [U256.from_u64_limbs, List.getD, U256.toNat]
    rw [beBytesToNat_append, beBytesToNat_append, beBytesToNat_append]
    simp only [List.length_append, beFixed_length, beFixed_val]
    simp only [limbsVal]
    norm_num
    omega
  · constructor
    · simp only [U256.from_u64_limbs]
      simp [beFixed_length]
    · intro b hb
      simp only [U256.from_u64_limbs] at hb
      rcases List.mem_append.mp hb with hm | hm
      · rcases List.mem_append.mp hm with hm2 | hm2
        · rcases List.mem_append.mp hm2 with hm3 | hm3
          · exact beFixed_wf _ _ b hm3
          · exact beFixed_wf _ _ b hm3
        · exact beFixed_wf _ _ b hm2
      · exact beFixed_wf _ _ b hm

/-- `saturating_mul` computes the saturated product on well-formed values. -/
theorem saturating_mul_toNat (x y : U256) (hx : x.valid) (hy : y.valid) :
    (x.saturating_mul y).toNat =
      if x.toNat * y.toNat < 2 ^ 256 then x.toNat * y.toNat else 2 ^ 256 - 1 := by
  obtain ⟨hxa, hxv, hxl⟩ := to_u64_limbs_spec x hx
  obtain ⟨hya, hyv, hyl⟩ := to_u64_limbs_spec y hy
  obtain ⟨hrl, hrw, hrv⟩ := mulLimbs_spec x.to_u64_limbs y.to_u64_limbs hxa hya hxl hyl
  rw [hxv, hyv] at hrv
  have hsplit : (mulLimbs x.to_u64_limbs y.to_u64_limbs).take 4 ++
      (mulLimbs x.to_u64_limbs y.to_u64_limbs).drop 4 =
      mulLimbs x.to_u64_limbs y.to_u64_limbs := List.take_append_drop 4 _
  have hlo_len : ((mulLimbs x.to_u64_limbs y.to_u64_limbs).take 4).length = 4 := by
    rw [List.length_take, hrl]
    omega
  have hlo_wf : limbsWf ((mulLimbs x.to_u64_limbs y.to_u64_limbs).take 4) :=
    fun z hz => hrw z (List.take_subset _ _ hz)
  have hhi_wf : limbsWf ((mulLimbs x.to_u64_limbs y.to_u64_limbs).drop 4) :=
    fun z hz => hrw z (List.drop_subset _ _ hz)
  have hlo_lt : limbsVal ((mulLimbs x.to_u64_limbs y.to_u64_limbs).take 4) < 2 ^ 256 := by
    have := limbsVal_lt _ hlo_wf
    rw [hlo_len] at this
    calc limbsVal ((mulLimbs x.to_u64_limbs y.to_u64_limbs).take 4)
        < ((2 : Nat) ^ 64) ^ 4 := this
      _ = 2 ^ 256 := by norm_num
  have hdecomp : x.toNat * y.toNat =
      limbsVal ((mulLimbs x.to_u64_limbs y.to_u64_limbs).take 4) +
      2 ^ 256 * limbsVal ((mulLimbs x.to_u64_limbs y.to_u64_limbs).drop 4) := by
    rw [← hrv]
    conv_lhs => rw [← hsplit]
    rw [limbsVal_append, hlo_len]
    norm_num
  unfold U256.saturating_mul
  by_cases hany : ((mulLimbs x.to_u64_limbs y.to_u64_limbs).drop 4).any (fun l => l != 0)
  · rw [if_pos hany]
    have hne : limbsVal ((mulLimbs x.to_u64_limbs y.to_u64_limbs).drop 4) ≠ 0 := by
      intro hzero
      have hall := (limbsVal_eq_zero_iff _).mp hzero
      rcases List.any_eq_true.mp hany with ⟨z, hzm, hznz⟩
      exact absurd (hall z hzm) (by simpa using hznz)
    rw [max_value_toNat, if_neg (by omega)]
  · rw [if_neg hany]
    have hall : ∀ z ∈ (mulLimbs x.to_u64_limbs y.to_u64_limbs).drop 4, z = 0 := by
      intro z hz
      by_contra hnz
      exact hany (List.any_eq_true.mpr ⟨z, hz, by simpa using hnz⟩)
    have hzero : limbsVal ((mulLimbs x.to_u64_limbs y.to_u64_limbs).drop 4) = 0 :=
      (limbsVal_eq_zero_iff _).mpr hall
    rw [hzero] at hdecomp
    obtain ⟨hval, _⟩ := from_u64_limbs_spec _ hlo_len hlo_wf
    rw [hval, if_pos (by omega)]
    omega

/-- On the wire framing of a well-formed envelope, parsing succeeds. -/
theorem parse_wire (tx : Tx7eTransaction) (hv : ValidEnvelope tx) :
    Tx7eParser.parse (0x7e :: tx.rlp_encode) = .ok tx := by
  simp only [Tx7eParser.parse, decode_rlp_encode tx hv]
  norm_num

/-- On the wire framing of a well-formed envelope that passes validation, the
processor reaches the success branch of `process_transaction`. -/
theorem process_wire_ok (tx : Tx7eTransaction) (hv : ValidEnvelope tx)
    (hval : (Tx7eParser.validate_transaction tx).isValid = true) :
    Tx7eProcessor.process_transaction (0x7e :: tx.rlp_encode) =
      { success := true, error := "", transaction := some tx,
        gas_used := Tx7eProcessor.calculate_gas_usage tx, l1_cost := tx.l1_fee } := by
  simp only [Tx7eProcessor.process_transaction, parse_wire tx hv, hval, Bool.not_true,
    Bool.false_eq_true, if_false]
  rfl

/-- `calculate_gas_usage` agrees with the exact arithmetic formula when the
`u64` gas computation cannot overflow. -/
theorem calculate_gas_usage_exact (tx : Tx7eTransaction)
    (hov : 21000 + (if 0 < tx.data.length then tx.data.length * 16 else 0) +
      (if tx.value ≠ U256.zero then 9000 else 0) < 2 ^ 64) :
    Tx7eProcessor.calculate_gas_usage tx =
      min (21000 + (if 0 < tx.data.length then tx.data.length * 16 else 0) +
        (if tx.value ≠ U256.zero then 9000 else 0)) tx.gas_limit := by
  by_cases hd : tx.data = []
  · have e1 : (if 0 < tx.data.length then tx.data.length * 16 else 0) = 0 := by simp [hd]
    by_cases hz : tx.value = U256.zero
    · have e2 : (if tx.value ≠ U256.zero then 9000 else 0) = 0 := by simp [hz]
      simp only [Tx7eProcessor.calculate_gas_usage,
        if_neg (show ¬tx.data ≠ [] by simp [hd]),
        if_neg (show ¬tx.value ≠ U256.zero by simp [hz]), e1, e2]
    · have e2 : (if tx.value ≠ U256.zero then 9000 else 0) = 9000 := by simp [hz]
      simp only [Tx7eProcessor.calculate_gas_usage,
        if_neg (show ¬tx.data ≠ [] by simp [hd]), if_pos (show tx.value ≠ U256.zero from hz),
        e1, e2, U64MOD_eq]
      norm_num
  · have hp : 0 < tx.data.length := List.length_pos.mpr hd
    have e1 : (if 0 < tx.data.length then tx.data.length * 16 else 0) =
        tx.data.length * 16 := by simp [hp]
    rw [e1] at hov
    by_cases hz : tx.value = U256.zero
    · have e2 : (if tx.value ≠ U256.zero then 9000 else 0) = 0 := by simp [hz]
      rw [e2] at hov
      simp only [Tx7eProcessor.calculate_gas_usage, if_pos (show tx.data ≠ [] from hd),
        if_neg (show ¬tx.value ≠ U256.zero by simp [hz]), e1, e2, U64MOD_eq]
      have hcollapse : (21000 + tx.data.length % 2 ^ 64 * 16 % 2 ^ 64) % 2 ^ 64 =
          21000 + tx.data.length * 16 + 0 := by omega
      rw [hcollapse]
    · have e2 : (if tx.value ≠ U256.zero then 9000 else 0) = 9000 := by simp [hz]
      rw [e2] at hov
      simp only [Tx7eProcessor.calculate_gas_usage, if_pos (show tx.data ≠ [] from hd),
        if_pos (show tx.value ≠ U256.zero from hz), e1, e2, U64MOD_eq]
      have hcollapse : ((21000 + tx.data.length % 2 ^ 64 * 16 % 2 ^ 64) % 2 ^ 64 + 9000) %
          2 ^ 64 = 21000 + tx.data.length * 16 + 9000 := by omega
      rw [hcollapse]

/-- `saturating_add` preserves the 32-byte representation invariant. -/
theorem saturating_add_valid (x y : U256) (hx : x.valid) (hy : y.valid) :
    (x.saturating_add y).valid := by
  have hlx : x.bytes.reverse.length = 32 := by simp [hx.1]
  have hly : y.bytes.reverse.length = 32 := by simp [hy.1]
  have hwx : bytesWf x.bytes.reverse := fun b hb => hx.2 b (List.mem_reverse.mp hb)
  have hwy : bytesWf y.bytes.reverse := fun b hb => hy.2 b (List.mem_reverse.mp hb)
  obtain ⟨_, hlen, hwf, hc⟩ :=
    addLE_spec x.bytes.reverse y.bytes.reverse 0 (by rw [hlx, hly]) hwx hwy (by norm_num)
  rw [hlx] at hlen
  unfold U256.saturating_add U256.overflowing_add
  rcases Nat.le_one_iff_eq_zero_or_eq_one.mp hc with h2 | h2
  · simp only [h2, show (decide ((0 : Nat) < 0)) = false from rfl, Bool.false_eq_true,
      if_false]
    exact ⟨by simp [hlen], fun b hb => hwf b (List.mem_reverse.mp hb)⟩
  · simp only [h2, show (decide ((0 : Nat) < 1)) = true from rfl, if_true]
    exact max_value_valid

/-- `saturating_mul` preserves the 32-byte representation invariant. -/
theorem saturating_mul_valid (x y : U256) (hx : x.valid) (hy : y.valid) :
    (x.saturating_mul y).valid := by
  obtain ⟨hxa, _, hxl⟩ := to_u64_limbs_spec x hx
  obtain ⟨hya, _, hyl⟩ := to_u64_limbs_spec y hy
  obtain ⟨hrl, hrw, _⟩ := mulLimbs_spec x.to_u64_limbs y.to_u64_limbs hxa hya hxl hyl
  have hlo_len : ((mulLimbs x.to_u64_limbs y.to_u64_limbs).take 4).length = 4 := by
    rw [List.length_take, hrl]
    omega
  have hlo_wf : limbsWf ((mulLimbs x.to_u64_limbs y.to_u64_limbs).take 4) :=
    fun z hz => hrw z (List.take_subset _ _ hz)
  unfold U256.saturating_mul
  by_cases hany :
      ((mulLimbs x.to_u64_limbs y.to_u64_limbs).drop 4).any (fun l => l != 0) = true
  · simp only [hany, if_true]
    exact max_value_valid
  · simp only [hany, Bool.false_eq_true, if_false]
    exact (from_u64_limbs_spec _ hlo_len hlo_wf).2

theorem ite_singleton_eq_nil (c : Prop) [Decidable c] (x : String) :
    ((if c then [x] else []) = []) ↔ ¬c := by
  split_ifs with h
  · simp [h]
  · simp [h]

/-- Decoding with an arity other than 13 fails with `RlpIncorrectListLen`
before any field is read. -/
theorem decode_arity (ss : List (List Nat))
    (hwf : ∀ s ∈ ss, bytesWf s ∧ s.length < 2 ^ 64)
    (htot : ((ss.map rlpEncodeBytes).join).length < 2 ^ 64) (hn : ss.length ≠ 13) :
    Tx7eTransaction.decode (rlpEncodeStringList ss) = .error .rlpIncorrectListLen := by
  have hitems := rlpListItems_enc ss hwf htot
  unfold Tx7eTransaction.decode
  rw [hitems]
  simp only [List.length_map]
  rw [if_neg hn]

theorem fieldBytes_wf_g (tx : Tx7eTransaction) (h : WfFields tx) :
    ∀ s ∈ tx.fieldBytes, bytesWf s ∧ s.length < 2 ^ 64 := by
  obtain ⟨h1, h2, h3, h4, h5, htw, htl, hrw, hrl, hvw, hvl, hbw, hbl, hgw, hgl,
    hfw, hfl, hshw, hshl, hdw, hdl⟩ := h
  have hu64 : ∀ n : Nat, n < 2 ^ 64 →
      bytesWf (natToBeBytes n) ∧ (natToBeBytes n).length < 2 ^ 64 := by
    intro n hn
    refine ⟨natToBeBytes_wf n, ?_⟩
    have : (natToBeBytes n).length ≤ 8 := by
      apply natToBeBytes_length_le
      calc n < 2 ^ 64 := hn
        _ = 256 ^ 8 := by norm_num
    omega
  intro s hs
  simp only [Tx7eTransaction.fieldBytes, List.mem_cons, List.not_mem_nil, or_false] at hs
  rcases hs with rfl | rfl | rfl | rfl | rfl | rfl | rfl | rfl | rfl | rfl | rfl | rfl | rfl
  · exact hu64 _ h1
  · exact ⟨htw, by rw [Address.as_bytes]; omega⟩
  · exact ⟨hvw, by rw [U256.to_big_endian]; omega⟩
  · exact ⟨hdw, by omega⟩
  · exact hu64 _ h2
  · exact hu64 _ h3
  · exact hu64 _ h4
  · exact ⟨hbw, by rw [U256.to_big_endian]; omega⟩
  · exact ⟨hgw, by rw [U256.to_big_endian]; omega⟩
  · exact hu64 _ h5
  · exact ⟨hfw, by rw [U256.to_big_endian]; omega⟩
  · exact ⟨hrw, by rw [Address.as_bytes]; omega⟩
  · exact ⟨hshw, by omega⟩

theorem fieldBytes_payload_lt_g (tx : Tx7eTransaction) (h : WfFields tx) :
    ((tx.fieldBytes.map rlpEncodeBytes).join).length < 2 ^ 64 := by
  have hw := fieldBytes_wf_g tx h
  obtain ⟨h1, h2, h3, h4, h5, htw, htl, hrw, hrl, hvw, hvl, hbw, hbl, hgw, hgl,
    hfw, hfl, hshw, hshl, hdw, hdl⟩ := h
  have hlen : ∀ s ∈ tx.fieldBytes, (rlpEncodeBytes s).length ≤ s.length + 9 := by
    intro s hs
    exact rlpEncodeBytes_length_le s (hw s hs).2
  have hjoin : ((tx.fieldBytes.map rlpEncodeBytes).join).length =
      (rlpEncodeBytes (natToBeBytes tx.chain_id)).length +
      (rlpEncodeBytes tx.target.as_bytes).length +
      (rlpEncodeBytes tx.value.to_big_endian).length +
      (rlpEncodeBytes tx.data).length +
      (rlpEncodeBytes (natToBeBytes tx.gas_limit)).length +
      (rlpEncodeBytes (natToBeBytes tx.l1_block_number)).length +
      (rlpEncodeBytes (natToBeBytes tx.l1_timestamp)).length +
      (rlpEncodeBytes tx.l1_base_fee.to_big_endian).length +
      (rlpEncodeBytes tx.l1_gas_price.to_big_endian).length +
      (rlpEncodeBytes (natToBeBytes tx.l1_gas_used)).length +
      (rlpEncodeBytes tx.l1_fee.to_big_endian).length +
      (rlpEncodeBytes tx.refund_address.as_bytes).length +
      (rlpEncodeBytes tx.source_hash).length := by
    simp [Tx7eTransaction.fieldBytes]
    omega
  have hu8 : ∀ n : Nat, n < 2 ^ 64 → (natToBeBytes n).length ≤ 8 := by
    intro n hn
    apply natToBeBytes_length_le
    calc n < 2 ^ 64 := hn
      _ = 256 ^ 8 := by norm_num
  have g0 : (natToBeBytes tx.chain_id).length ≤ 8 := hu8 _ h1
  have g1 : tx.target.as_bytes.length < 2 ^ 60 := htl
  have g2 : tx.value.to_big_endian.length < 2 ^ 60 := hvl
  have g3 : tx.data.length < 2 ^ 60 := hdl
  have g4 : (natToBeBytes tx.gas_limit).length ≤ 8 := hu8 _ h2
  have g5 : (natToBeBytes tx.l1_block_number).length ≤ 8 := hu8 _ h3
  have g6 : (natToBeBytes tx.l1_timestamp).length ≤ 8 := hu8 _ h4
  have g7 : tx.l1_base_fee.to_big_endian.length < 2 ^ 60 := hbl
  have g8 : tx.l1_gas_price.to_big_endian.length < 2 ^ 60 := hgl
  have g9 : (natToBeBytes tx.l1_gas_used).length ≤ 8 := hu8 _ h5
  have g10 : tx.l1_fee.to_big_endian.length < 2 ^ 60 := hfl
  have g11 : tx.refund_address.as_bytes.length < 2 ^ 60 := hrl
  have g12 : tx.source_hash.length < 2 ^ 60 := hshl
  have e0 := hlen _ (show natToBeBytes tx.chain_id ∈ tx.fieldBytes by
    simp [Tx7eTransaction.fieldBytes])
  have e1 := hlen _ (show tx.target.as_bytes ∈ tx.fieldBytes by
    simp [Tx7eTransaction.fieldBytes])
  have e2 := hlen _ (show tx.value.to_big_endian ∈ tx.fieldBytes by
    simp [Tx7eTransaction.fieldBytes])
  have e3 := hlen _ (show tx.data ∈ tx.fieldBytes by simp [Tx7eTransaction.fieldBytes])
  have e4 := hlen _ (show natToBeBytes tx.gas_limit ∈ tx.fieldBytes by
    simp [Tx7eTransaction.fieldBytes])
  have e5 := hlen _ (show natToBeBytes tx.l1_block_number ∈ tx.fieldBytes by
    simp [Tx7eTransaction.fieldBytes])
  have e6 := hlen _ (show natToBeBytes tx.l1_timestamp ∈ tx.fieldBytes by
    simp [Tx7eTransaction.fieldBytes])
  have e7 := hlen _ (show tx.l1_base_fee.to_big_endian ∈ tx.fieldBytes by
    simp [Tx7eTransaction.fieldBytes])
  have e8 := hlen _ (show tx.l1_gas_price.to_big_endian ∈ tx.fieldBytes by
    simp [Tx7eTransaction.fieldBytes])
  have e9 := hlen _ (show natToBeBytes tx.l1_gas_used ∈ tx.fieldBytes by
    simp [Tx7eTransaction.fieldBytes])
  have e10 := hlen _ (show tx.l1_fee.to_big_endian ∈ tx.fieldBytes by
    simp [Tx7eTransaction.fieldBytes])
  have e11 := hlen _ (show tx.refund_address.as_bytes ∈ tx.fieldBytes by
    simp [Tx7eTransaction.fieldBytes])
  have e12 := hlen _ (show tx.source_hash ∈ tx.fieldBytes by
    simp [Tx7eTransaction.fieldBytes])
  rw [hjoin]
  omega

/-- Decoding the canonical encoding of any well-formed-bytes envelope reaches
the three explicit length checks: it fails with the corresponding `Custom`
error when `target`, `refund_address` or `source_hash` has the wrong length,
and succeeds otherwise. -/
theorem decode_encode_wf (tx : Tx7eTransaction) (h : WfFields tx) :
    Tx7eTransaction.decode tx.rlp_encode =
      if tx.target.as_bytes.length ≠ 20 then .error (.custom "Invalid target address length")
      else if tx.refund_address.as_bytes.length ≠ 20 then
        .error (.custom "Invalid refund address length")
      else if tx.source_hash.length ≠ 32 then .error (.custom "Invalid source hash length")
      else .ok { chain_id := tx.chain_id
                 target := tx.target
                 value := U256.from_big_endian tx.value.to_big_endian
                 data := tx.data
                 gas_limit := tx.gas_limit
                 l1_block_number := tx.l1_block_number
                 l1_timestamp := tx.l1_timestamp
                 l1_base_fee := U256.from_big_endian tx.l1_base_fee.to_big_endian
                 l1_gas_price := U256.from_big_endian tx.l1_gas_price.to_big_endian
                 l1_gas_used := tx.l1_gas_used
                 l1_fee := U256.from_big_endian tx.l1_fee.to_big_endian
                 refund_address := tx.refund_address
                 source_hash := tx.source_hash } := by
  have hitems := rlpListItems_enc tx.fieldBytes (fieldBytes_wf_g tx h)
    (fieldBytes_payload_lt_g tx h)
  obtain ⟨h1, h2, h3, h4, h5, htw, htl, hrw, hrl, hvw, hvl, hbw, hbl, hgw, hgl,
    hfw, hfl, hshw, hshl, hdw, hdl⟩ := h
  unfold Tx7eTransaction.decode Tx7eTransaction.rlp_encode
  rw [hitems]
  simp only [Tx7eTransaction.fieldBytes, List.map, List.length_cons, List.length_nil]
  rw [if_pos (by norm_num)]
  simp only [rlpDecodeU64_encBytes tx.chain_id h1,
    rlpDecodeU64_encBytes tx.gas_limit h2,
    rlpDecodeU64_encBytes tx.l1_block_number h3,
    rlpDecodeU64_encBytes tx.l1_timestamp h4,
    rlpDecodeU64_encBytes tx.l1_gas_used h5,
    rlpDecodeValue_enc tx.target.as_bytes htw (by rw [Address.as_bytes]; omega),
    rlpDecodeValue_enc tx.refund_address.as_bytes hrw (by rw [Address.as_bytes]; omega),
    rlpDecodeValue_enc tx.value.to_big_endian hvw (by rw [U256.to_big_endian]; omega),
    rlpDecodeValue_enc tx.l1_base_fee.to_big_endian hbw (by rw [U256.to_big_endian]; omega),
    rlpDecodeValue_enc tx.l1_gas_price.to_big_endian hgw (by rw [U256.to_big_endian]; omega),
    rlpDecodeValue_enc tx.l1_fee.to_big_endian hfw (by rw [U256.to_big_endian]; omega),
    rlpDecodeValue_enc tx.data hdw (by omega),
    rlpDecodeValue_enc tx.source_hash hshw (by omega),
    exceptBind_ok]
  rfl

/-! ### Hex parsing lemmas -/

theorem hexVal_isSome (c : Nat) : (hexVal c).isSome = isHexDigitByte c := by
  unfold hexVal isHexDigitByte
  split_ifs with h1 h2 h3 <;> simp_all

theorem parseChunk_isSome (a b : Nat) :
    (parseChunk a b).isSome =
      ((isHexDigitByte a && isHexDigitByte b) || (a == 0x2b && isHexDigitByte b)) := by
  by_cases ha : a = 0x2b
  · subst ha
    rw [parseChunk, if_pos rfl]
    rw [hexVal_isSome]
    have h2b : isHexDigitByte 0x2b = false := by decide
    simp [h2b]
  · rw [parseChunk, if_neg ha]
    have hne : (a == 0x2b) = false := by simp [ha]
    rw [hne, Bool.false_and, Bool.or_false]
    have hA := hexVal_isSome a
    have hB := hexVal_isSome b
    cases hva : hexVal a with
    | none =>
      rw [hva] at hA
      simp only [hva]
      cases hvb : hexVal b with
      | none => simp [← hA]
      | some y => simp [← hA]
    | some x =>
      rw [hva] at hA
      cases hvb : hexVal b with
      | none =>
        rw [hvb] at hB
        simp [← hA, ← hB]
      | some y =>
        rw [hvb] at hB
        simp [← hA, ← hB]

theorem parseHexChunks_isSome : ∀ l : List Nat, (parseHexChunks l).isSome = chunksOk l
  | [] => rfl
  | [_] => rfl
  | a :: b :: rest => by
    have ih := parseHexChunks_isSome rest
    have hpc := parseChunk_isSome a b
    simp only [parseHexChunks, chunksOk]
    cases hc : parseChunk a b with
    | none =>
      rw [hc] at hpc
      simp [← hpc]
    | some v =>
      rw [hc] at hpc
      cases hr : parseHexChunks rest with
      | none =>
        rw [hr] at ih
        simp [← hpc, ← ih]
      | some vs =>
        rw [hr] at ih
        simp [← hpc, ← ih]

/-! ### Claim theorems -/

/-- C1: for every valid `Tx7eTransaction` envelope, decoding the canonical
13-item list encoding yields the envelope back unchanged in all 13 fields:
`decode (rlp_encode tx) = ok tx`. -/
theorem claim_C1 (tx : Tx7eTransaction) (hv : ValidEnvelope tx) :
    Tx7eTransaction.decode tx.rlp_encode = .ok tx :=
  decode_rlp_encode tx hv

theorem claim_C1_witness :
    ValidEnvelope mockTx ∧ Tx7eTransaction.decode mockTx.rlp_encode = .ok mockTx :=
  ⟨by decide, claim_C1 mockTx (by decide)⟩

/-- C2 (amended): `hash` digests exactly the canonical list encoding
`rlp_encode tx`, i.e. the body alone — not the wire-framed byte string
`0x7e :: rlp_encode tx` that the original claim asserts. -/
theorem claim_C2 (keccak : List Nat → List Nat) (tx : Tx7eTransaction) :
    Tx7eTransaction.hashWith keccak tx = keccak tx.rlp_encode ∧
    Tx7eTransaction.hashInput tx = tx.rlp_encode ∧
    Tx7eTransaction.hashInput tx ≠ 0x7e :: tx.rlp_encode := by
  refine ⟨rfl, rfl, fun h => ?_⟩
  have hl := congrArg List.length h
  simp only [Tx7eTransaction.hashInput, List.length_cons] at hl
  omega

/-- C2 counterexample: on the repository's mock transaction, the digest input
of `hash` is the bare list encoding and differs from the tag-framed byte
string claimed by the specification. -/
theorem claim_C2_counterexample :
    Tx7eTransaction.hashInput mockTx = mockTx.rlp_encode ∧
    Tx7eTransaction.hashInput mockTx ≠ 0x7e :: mockTx.rlp_encode := by
  refine ⟨rfl, fun h => ?_⟩
  have hl := congrArg List.length h
  simp only [Tx7eTransaction.hashInput, List.length_cons] at hl
  omega

/-- C4: for all 32-byte values `a`, `b`, `saturating_add` returns the wrapping
sum `(a + b) % 2 ^ 256` when the true sum fits in 256 bits and the all-ones
maximum `2 ^ 256 - 1` otherwise; `saturating_mul` returns the true product
when it fits and the maximum otherwise; both results are again 32-byte
values. -/
theorem claim_C4 (a b : U256) (ha : a.valid) (hb : b.valid) :
    (a.saturating_add b).valid ∧
    (a.saturating_mul b).valid ∧
    (a.saturating_add b).toNat =
      (if a.toNat + b.toNat < 2 ^ 256 then (a.toNat + b.toNat) % 2 ^ 256
       else 2 ^ 256 - 1) ∧
    (a.saturating_mul b).toNat =
      (if a.toNat * b.toNat < 2 ^ 256 then a.toNat * b.toNat else 2 ^ 256 - 1) :=
  ⟨saturating_add_valid a b ha hb, saturating_mul_valid a b ha hb,
   saturating_add_toNat a b ha hb, saturating_mul_toNat a b ha hb⟩

theorem claim_C4_witness :
    U256.max_value.valid ∧ (U256.from_u64 5).valid ∧
    ((U256.max_value.saturating_add (U256.from_u64 5)).valid ∧
     (U256.max_value.saturating_mul (U256.from_u64 5)).valid ∧
     (U256.max_value.saturating_add (U256.from_u64 5)).toNat =
       (if U256.max_value.toNat + (U256.from_u64 5).toNat < 2 ^ 256 then
          (U256.max_value.toNat + (U256.from_u64 5).toNat) % 2 ^ 256
        else 2 ^ 256 - 1) ∧
     (U256.max_value.saturating_mul (U256.from_u64 5)).toNat =
       (if U256.max_value.toNat * (U256.from_u64 5).toNat < 2 ^ 256 then
          U256.max_value.toNat * (U256.from_u64 5).toNat
        else 2 ^ 256 - 1)) :=
  ⟨by decide, by decide, claim_C4 U256.max_value (U256.from_u64 5) (by decide) (by decide)⟩

/-- C10: whenever the processor pipeline fails (parse failure or validation
failure), the returned `ProcessingResult` carries no partially computed data:
`transaction` is `none`, `gas_used` is `0` and `l1_cost` is the zero 256-bit
integer. -/
theorem claim_C10 (raw_tx : List Nat)
    (h : (Tx7eProcessor.process_transaction raw_tx).success = false) :
    (Tx7eProcessor.process_transaction raw_tx).transaction = none ∧
    (Tx7eProcessor.process_transaction raw_tx).gas_used = 0 ∧
    (Tx7eProcessor.process_transaction raw_tx).l1_cost = U256.zero := by
  cases hp : Tx7eParser.parse raw_tx with
  | error e =>
    simp only [Tx7eProcessor.process_transaction, hp]
    refine ⟨?_, ?_, ?_⟩ <;> trivial
  | ok tx =>
    simp only [Tx7eProcessor.process_transaction, hp] at h ⊢
    by_cases hv : (Tx7eParser.validate_transaction tx).isValid
    · rw [if_neg (by simp [hv])] at h
      simp at h
    · rw [if_pos (by simp [hv])] at h ⊢
      refine ⟨?_, ?_, ?_⟩ <;> trivial

theorem claim_C10_witness :
    (Tx7eProcessor.process_transaction []).success = false ∧
    ((Tx7eProcessor.process_transaction []).transaction = none ∧
     (Tx7eProcessor.process_transaction []).gas_used = 0 ∧
     (Tx7eProcessor.process_transaction []).l1_cost = U256.zero) :=
  ⟨by decide, claim_C10 [] (by decide)⟩

/-- C3 (amended): the `getCurrentTxL1GasFees` selector returns the 32-byte
big-endian encoding of `((nonZero * l1CalldataCost + zero * 4) * 9 / 10) *
l1BaseFee`, counting zero and non-zero bytes over the entire input including
the 4 selector bytes, provided the three `u64` computation steps do not wrap;
the original unconditional claim fails for configurations that overflow
(see the counterexample). -/
theorem claim_C3 (input : List Nat) (config : ArbitrumConfig)
    (hlen : 4 ≤ input.length)
    (hsel : input.take 4 = [0xc6, 0xf7, 0xde, 0x0e])
    (h1 : input.countP (fun b => b != 0) * config.gas_price_components.l1_calldata_cost +
      input.countP (fun b => b == 0) * 4 < 2 ^ 64)
    (h2 : (input.countP (fun b => b != 0) * config.gas_price_components.l1_calldata_cost +
      input.countP (fun b => b == 0) * 4) * 9 < 2 ^ 64)
    (h3 : (input.countP (fun b => b != 0) * config.gas_price_components.l1_calldata_cost +
      input.countP (fun b => b == 0) * 4) * 9 / 10 * config.l1_base_fee < 2 ^ 64) :
    ArbGasInfoHandler.handle_call input config =
      .ok (U256.from_u64 ((input.countP (fun b => b != 0) *
        config.gas_price_components.l1_calldata_cost +
        input.countP (fun b => b == 0) * 4) * 9 / 10 *
        config.l1_base_fee)).to_big_endian := by
  unfold ArbGasInfoHandler.handle_call
  rw [if_neg (by omega)]
  simp only [hsel, if_pos rfl]
  rw [if_pos trivial]
  simp only [ArbGasInfoHandler.handle_get_current_tx_l1_gas_fees, U64MOD_eq]
  have e1 : input.countP (fun b => b != 0) *
      config.gas_price_components.l1_calldata_cost % 2 ^ 64 =
      input.countP (fun b => b != 0) * config.gas_price_components.l1_calldata_cost :=
    Nat.mod_eq_of_lt (by omega)
  have e2 : input.countP (fun b => b == 0) * 4 % 2 ^ 64 =
      input.countP (fun b => b == 0) * 4 := Nat.mod_eq_of_lt (by omega)
  have e3 : (input.countP (fun b => b != 0) *
      config.gas_price_components.l1_calldata_cost +
      input.countP (fun b => b == 0) * 4) % 2 ^ 64 =
      input.countP (fun b => b != 0) * config.gas_price_components.l1_calldata_cost +
      input.countP (fun b => b == 0) * 4 := Nat.mod_eq_of_lt h1
  have e4 : (input.countP (fun b => b != 0) *
      config.gas_price_components.l1_calldata_cost +
      input.countP (fun b => b == 0) * 4) * 9 % 2 ^ 64 =
      (input.countP (fun b => b != 0) * config.gas_price_components.l1_calldata_cost +
      input.countP (fun b => b == 0) * 4) * 9 := Nat.mod_eq_of_lt h2
  have e5 : (input.countP (fun b => b != 0) *
      config.gas_price_components.l1_calldata_cost +
      input.countP (fun b => b == 0) * 4) * 9 / 10 * config.l1_base_fee % 2 ^ 64 =
      (input.countP (fun b => b != 0) * config.gas_price_components.l1_calldata_cost +
      input.countP (fun b => b == 0) * 4) * 9 / 10 * config.l1_base_fee :=
    Nat.mod_eq_of_lt h3
  rw [e1, e2, e3, e4, e5]

theorem claim_C3_witness :
    4 ≤ ([0xc6, 0xf7, 0xde, 0x0e] : List Nat).length ∧
    ArbGasInfoHandler.handle_call [0xc6, 0xf7, 0xde, 0x0e] ArbitrumConfig.defaultConfig =
      .ok (U256.from_u64 ((([0xc6, 0xf7, 0xde, 0x0e] : List Nat).countP (fun b => b != 0) *
        ArbitrumConfig.defaultConfig.gas_price_components.l1_calldata_cost +
        ([0xc6, 0xf7, 0xde, 0x0e] : List Nat).countP (fun b => b == 0) * 4) * 9 / 10 *
        ArbitrumConfig.defaultConfig.l1_base_fee)).to_big_endian ∧
    (([0xc6, 0xf7, 0xde, 0x0e] : List Nat).countP (fun b => b != 0) *
      ArbitrumConfig.defaultConfig.gas_price_components.l1_calldata_cost +
      ([0xc6, 0xf7, 0xde, 0x0e] : List Nat).countP (fun b => b == 0) * 4) * 9 / 10 *
      ArbitrumConfig.defaultConfig.l1_base_fee = 1140000000000 :=
  ⟨by decide,
   claim_C3 [0xc6, 0xf7, 0xde, 0x0e] ArbitrumConfig.defaultConfig (by decide) (by decide)
     (by decide) (by decide) (by decide),
   by decide⟩

/-- C3 counterexample: with `l1_calldata_cost = 2 ^ 62` and `l1_base_fee = 1`,
the 4 non-zero selector bytes give a raw gas of `2 ^ 64`, which wraps to `0`
in the Rust `u64` arithmetic: the handler returns the encoding of `0`, not of
the exact-arithmetic fee `16602069666338596454` asserted by the claim's
formula. -/
theorem claim_C3_counterexample :
    ArbGasInfoHandler.handle_call [0xc6, 0xf7, 0xde, 0x0e] c3Cfg =
      .ok (U256.from_u64 0).to_big_endian ∧
    (([0xc6, 0xf7, 0xde, 0x0e] : List Nat).countP (fun b => b != 0) *
      c3Cfg.gas_price_components.l1_calldata_cost +
      ([0xc6, 0xf7, 0xde, 0x0e] : List Nat).countP (fun b => b == 0) * 4) * 9 / 10 *
      c3Cfg.l1_base_fee = 16602069666338596454 ∧
    (U256.from_u64 0).to_big_endian ≠ (U256.from_u64 16602069666338596454).to_big_endian := by
  refine ⟨by decide, by decide, by decide⟩

/-- C5 (amended): for every well-formed envelope that decodes and validates
successfully, and whose gas computation does not wrap in `u64`, the processor
reports `gasUsed = min (21000 + (dataLen > 0 ? dataLen * 16 : 0) +
(value ≠ 0 ? 9000 : 0)) gasLimit`; the unconditional exact formula of the
original claim fails for wrapping data lengths (see the counterexample). -/
theorem claim_C5 (tx : Tx7eTransaction) (hv : ValidEnvelope tx)
    (hval : (Tx7eParser.validate_transaction tx).isValid = true)
    (hov : 21000 + (if 0 < tx.data.length then tx.data.length * 16 else 0) +
      (if tx.value ≠ U256.zero then 9000 else 0) < 2 ^ 64) :
    Tx7eProcessor.process_transaction (0x7e :: tx.rlp_encode) =
      { success := true
        error := ""
        transaction := some tx
        gas_used := min (21000 + (if 0 < tx.data.length then tx.data.length * 16 else 0) +
          (if tx.value ≠ U256.zero then 9000 else 0)) tx.gas_limit
        l1_cost := tx.l1_fee } := by
  rw [process_wire_ok tx hv hval, calculate_gas_usage_exact tx hov]

theorem claim_C5_witness :
    ValidEnvelope mockTx ∧
    (Tx7eParser.validate_transaction mockTx).isValid = true ∧
    Tx7eProcessor.process_transaction (0x7e :: mockTx.rlp_encode) =
      { success := true
        error := ""
        transaction := some mockTx
        gas_used := min (21000 +
          (if 0 < mockTx.data.length then mockTx.data.length * 16 else 0) +
          (if mockTx.value ≠ U256.zero then 9000 else 0)) mockTx.gas_limit
        l1_cost := mockTx.l1_fee } ∧
    min (21000 + (if 0 < mockTx.data.length then mockTx.data.length * 16 else 0) +
      (if mockTx.value ≠ U256.zero then 9000 else 0)) mockTx.gas_limit = 30064 :=
  ⟨by decide, by decide, claim_C5 mockTx (by decide) (by decide) (by decide), by decide⟩

/-- C5 counterexample: an otherwise valid envelope with `2 ^ 60` bytes of
calldata passes validation, yet the processor computes `gasUsed = 30000`
(the `u64` product `2 ^ 60 * 16` wraps to `0`) while the claim's exact
formula gives `min(21000 + 2 ^ 60 * 16 + 9000, 100000) = 100000`. -/
theorem claim_C5_counterexample :
    (Tx7eParser.validate_transaction c5Tx).isValid = true ∧
    Tx7eProcessor.calculate_gas_usage c5Tx = 30000 ∧
    min (21000 + (if 0 < c5Tx.data.length then c5Tx.data.length * 16 else 0) +
      (if c5Tx.value ≠ U256.zero then 9000 else 0)) c5Tx.gas_limit = 100000 ∧
    (30000 : Nat) ≠ 100000 := by
  have hlen : c5Tx.data.length = 2 ^ 60 := by
    show (List.replicate (2 ^ 60) 1).length = 2 ^ 60
    exact List.length_replicate _ _
  have hne : c5Tx.data ≠ [] := by
    intro h
    rw [h] at hlen
    simp at hlen
  have hvz : c5Tx.value ≠ U256.zero := by decide
  have hgl : c5Tx.gas_limit = 100000 := rfl
  refine ⟨by decide, ?_, ?_, by omega⟩
  · show min (if c5Tx.value ≠ U256.zero then
        ((if c5Tx.data ≠ [] then (21000 + c5Tx.data.length % U64MOD * 16 % U64MOD) % U64MOD
          else 21000) + 9000) % U64MOD
      else (if c5Tx.data ≠ [] then (21000 + c5Tx.data.length % U64MOD * 16 % U64MOD) % U64MOD
          else 21000)) c5Tx.gas_limit = 30000
    rw [if_pos hvz, if_pos hne, hlen, hgl]
    norm_num [U64MOD]
  · rw [if_pos (show 0 < c5Tx.data.length by rw [hlen]; norm_num), if_pos hvz, hlen, hgl]
    norm_num

/-- C6: the validator evaluates all seven checks independently with no
short-circuit — `isValid` holds exactly when all seven conditions hold, the
error list accumulates exactly one message per failed check (its length is
the sum of the seven failure indicators), and `isValid` is precisely the
emptiness of the error list; moreover an envelope with `chain_id = 0` and
every other field valid yields `isValid = false` with exactly the one error
message `"Invalid chain ID: cannot be zero"`. -/
theorem claim_C6 :
    (∀ tx : Tx7eTransaction,
      ((Tx7eParser.validate_transaction tx).isValid = true ↔
        (tx.chain_id ≠ 0 ∧ tx.target.as_bytes ≠ List.replicate 20 0 ∧ tx.gas_limit ≠ 0 ∧
         tx.l1_block_number ≠ 0 ∧ tx.l1_timestamp ≠ 0 ∧ tx.l1_base_fee ≠ U256.zero ∧
         tx.source_hash ≠ List.replicate 32 0)) ∧
      (Tx7eParser.validate_transaction tx).errors.length =
        ((if tx.chain_id = 0 then 1 else 0) +
         (if tx.target.as_bytes = List.replicate 20 0 then 1 else 0) +
         (if tx.gas_limit = 0 then 1 else 0) +
         (if tx.l1_block_number = 0 then 1 else 0) +
         (if tx.l1_timestamp = 0 then 1 else 0) +
         (if tx.l1_base_fee = U256.zero then 1 else 0) +
         (if tx.source_hash = List.replicate 32 0 then 1 else 0)) ∧
      (Tx7eParser.validate_transaction tx).isValid =
        (Tx7eParser.validate_transaction tx).errors.isEmpty) ∧
    Tx7eParser.validate_transaction c6Tx =
      ⟨false, ["Invalid chain ID: cannot be zero"]⟩ := by
  refine ⟨fun tx => ⟨?_, ?_, rfl⟩, by decide⟩
  · show (List.isEmpty _) = true ↔ _
    rw [List.isEmpty_iff]
    simp only [List.append_eq_nil, ite_singleton_eq_nil]
    tauto
  · simp only [Tx7eParser.validate_transaction, List.length_append, apply_ite List.length,
      List.length_singleton, List.length_nil]

/-- C7: for every configuration, the `getPricesInWei` selector returns the
concatenation of exactly six 32-byte big-endian words, in order: L2 base fee,
L1 calldata cost, `saturatingMul(l1BaseFee, l1CalldataCost)`, L2 base fee
again, congestion fee, and `saturatingAdd(L2 base fee, congestion fee)`. -/
theorem claim_C7 (config : ArbitrumConfig) (payload : List Nat) :
    ArbGasInfoHandler.handle_call ([0x41, 0xb2, 0x47, 0xa8] ++ payload) config =
      .ok ((U256.from_u64 config.gas_price_components.l2_base_fee).to_big_endian ++
        (U256.from_u64 config.gas_price_components.l1_calldata_cost).to_big_endian ++
        ((U256.from_u64 config.l1_base_fee).saturating_mul
          (U256.from_u64 config.gas_price_components.l1_calldata_cost)).to_big_endian ++
        (U256.from_u64 config.gas_price_components.l2_base_fee).to_big_endian ++
        (U256.from_u64 config.gas_price_components.congestion_fee).to_big_endian ++
        ((U256.from_u64 config.gas_price_components.l2_base_fee).saturating_add
          (U256.from_u64 config.gas_price_components.congestion_fee)).to_big_endian) ∧
    (U256.from_u64 config.gas_price_components.l2_base_fee).to_big_endian.length = 32 ∧
    (U256.from_u64 config.gas_price_components.l1_calldata_cost).to_big_endian.length = 32 ∧
    ((U256.from_u64 config.l1_base_fee).saturating_mul
      (U256.from_u64 config.gas_price_components.l1_calldata_cost)).to_big_endian.length =
      32 ∧
    (U256.from_u64 config.gas_price_components.congestion_fee).to_big_endian.length = 32 ∧
    ((U256.from_u64 config.gas_price_components.l2_base_fee).saturating_add
      (U256.from_u64 config.gas_price_components.congestion_fee)).to_big_endian.length =
      32 := by
  have htake : (([0x41, 0xb2, 0x47, 0xa8] : List Nat) ++ payload).take 4 =
      [0x41, 0xb2, 0x47, 0xa8] := take_append_self [0x41, 0xb2, 0x47, 0xa8] payload
  refine ⟨?_, (from_u64_valid _).1, (from_u64_valid _).1,
    (saturating_mul_valid _ _ (from_u64_valid _) (from_u64_valid _)).1,
    (from_u64_valid _).1,
    (saturating_add_valid _ _ (from_u64_valid _) (from_u64_valid _)).1⟩
  unfold ArbGasInfoHandler.handle_call
  rw [if_neg (by simp [List.length_append])]
  simp only [htake]
  rw [if_pos trivial]
  rfl

/-- C8: `parse` fails on the empty input, fails on any non-empty input whose
first byte is not `0x7e`, and otherwise RLP-decodes the rest: decoding a
canonical list of any arity other than 13 fails with the incorrect-list-length
error, and decoding a 13-field envelope whose target, refund address or source
hash has the wrong length fails with the corresponding custom length error. -/
theorem claim_C8 :
    Tx7eParser.parse [] = .error .empty ∧
    (∀ b rest, b ≠ 0x7e → Tx7eParser.parse (b :: rest) = .error (.wrongType b)) ∧
    (∀ ss : List (List Nat), (∀ s ∈ ss, bytesWf s ∧ s.length < 2 ^ 64) →
      ((ss.map rlpEncodeBytes).join).length < 2 ^ 64 → ss.length ≠ 13 →
      Tx7eParser.parse (0x7e :: rlpEncodeStringList ss) =
        .error (.rlp .rlpIncorrectListLen)) ∧
    (∀ tx : Tx7eTransaction, WfFields tx →
      (tx.target.as_bytes.length ≠ 20 →
        Tx7eParser.parse (0x7e :: tx.rlp_encode) =
          .error (.rlp (.custom "Invalid target address length"))) ∧
      (tx.target.as_bytes.length = 20 → tx.refund_address.as_bytes.length ≠ 20 →
        Tx7eParser.parse (0x7e :: tx.rlp_encode) =
          .error (.rlp (.custom "Invalid refund address length"))) ∧
      (tx.target.as_bytes.length = 20 → tx.refund_address.as_bytes.length = 20 →
        tx.source_hash.length ≠ 32 →
        Tx7eParser.parse (0x7e :: tx.rlp_encode) =
          .error (.rlp (.custom "Invalid source hash length")))) := by
  refine ⟨rfl, ?_, ?_, ?_⟩
  · intro b rest hb
    simp only [Tx7eParser.parse]
    rw [if_pos hb]
  · intro ss hwf htot hn
    simp only [Tx7eParser.parse, decode_arity ss hwf htot hn]
    norm_num
  · intro tx hwf
    have hd := decode_encode_wf tx hwf
    refine ⟨?_, ?_, ?_⟩
    · intro ht
      rw [if_pos ht] at hd
      simp only [Tx7eParser.parse, hd]
      norm_num
    · intro ht hr
      rw [if_neg (by simp [ht]), if_pos hr] at hd
      simp only [Tx7eParser.parse, hd]
      norm_num
    · intro ht hr hs
      rw [if_neg (by simp [ht]), if_neg (by simp [hr]), if_pos hs] at hd
      simp only [Tx7eParser.parse, hd]
      norm_num

theorem claim_C8_witness :
    Tx7eParser.parse [] = .error .empty ∧
    ((1 : Nat) ≠ 0x7e ∧ Tx7eParser.parse [1] = .error (.wrongType 1)) ∧
    (([[1]] : List (List Nat)).length ≠ 13 ∧
     Tx7eParser.parse (0x7e :: rlpEncodeStringList [[1]]) =
       .error (.rlp .rlpIncorrectListLen)) ∧
    (WfFields badTx ∧ badTx.target.as_bytes.length ≠ 20 ∧
     Tx7eParser.parse (0x7e :: badTx.rlp_encode) =
       .error (.rlp (.custom "Invalid target address length"))) :=
  ⟨claim_C8.1,
   ⟨by decide, claim_C8.2.1 1 [] (by decide)⟩,
   ⟨by decide, claim_C8.2.2.1 [[1]] (by decide) (by decide) (by decide)⟩,
   ⟨by decide, by decide, (claim_C8.2.2.2 badTx (by decide)).1 (by decide)⟩⟩

/-- C9 (amended): `from_hex` fails with the invalid-length error whenever the
number of characters remaining after stripping an optional `"0x"` prefix is
not exactly 40; when it succeeds, exactly 40 characters remain and every
consecutive 2-character chunk is accepted by `u8::from_str_radix(_, 16)` —
i.e. it is two hex digits or a `+` followed by a hex digit.  The original
claim's stronger reading that the 40 remaining characters are all hex digits
fails on `+`-chunks (see the counterexample). -/
theorem claim_C9 :
    (∀ s : List Nat, (stripHexPfx s).length ≠ 40 →
      Address.from_hex s = .error .invalidLength) ∧
    (∀ s : List Nat, exceptIsOk (Address.from_hex s) = true →
      (stripHexPfx s).length = 40 ∧ chunksOk (stripHexPfx s) = true) := by
  have h1 : ∀ s : List Nat, (stripHexPfx s).length ≠ 40 →
      Address.from_hex s = .error .invalidLength := by
    intro s h
    simp only [Address.from_hex]
    rw [if_pos h]
  refine ⟨h1, ?_⟩
  intro s h
  by_cases hl : (stripHexPfx s).length ≠ 40
  · rw [h1 s hl] at h
    simp [exceptIsOk] at h
  · push_neg at hl
    refine ⟨hl, ?_⟩
    revert h
    simp only [Address.from_hex]
    rw [if_neg (by simp [hl])]
    cases hch : parseHexChunks (stripHexPfx s) with
    | none =>
      intro h
      simp [exceptIsOk] at h
    | some bytes =>
      intro _
      have hs := parseHexChunks_isSome (stripHexPfx s)
      rw [hch] at hs
      simpa using hs.symm

theorem claim_C9_witness :
    (((stripHexPfx [0x31]).length ≠ 40) ∧
     Address.from_hex [0x31] = .error .invalidLength) ∧
    (exceptIsOk (Address.from_hex c9Good) = true ∧
     (stripHexPfx c9Good).length = 40 ∧ chunksOk (stripHexPfx c9Good) = true) :=
  ⟨⟨by decide, claim_C9.1 [0x31] (by decide)⟩,
   ⟨by decide, claim_C9.2 c9Good (by decide)⟩⟩

/-- C9 counterexample: the 40-character input of twenty `"+1"` chunks is
accepted by `from_hex` (each chunk parses through `from_str_radix`'s optional
leading `+`), although its characters are not all hex digits. -/
theorem claim_C9_counterexample :
    exceptIsOk (Address.from_hex c9In) = true ∧
    (stripHexPfx c9In).length = 40 ∧
    (stripHexPfx c9In).all isHexDigitByte = false := by
  refine ⟨by decide, by decide, by decide⟩
